import Mathlib

/-!
# Verification of the skeletor `Collection` component

A shallow embedding of `src/collection.js` (and the parts of `src/helpers.js`
it uses) from the skeletor repository, together with proofs of the frozen
claims about it.

Modelling conventions:

* JavaScript objects used as attribute bags become association lists
  `List (String × Int)` with unique keys (a JS object cannot hold the same
  key twice); attribute values are modelled as integers.
* The `_byId` index is a JS object whose string keys are either a model's
  `cid` (in skeletor a string such as `"c12"`) or a model's resolved id.
  Since the two string shapes never collide, the key space is modelled as
  `Nat ⊕ Int` (`inl` = cid keys, `inr` = id keys).
* `Model` (`src/model.js`) is not part of the sources given; the small part
  of its contract that `Collection` consumes (`cid`, `attributes`,
  `validationError`, attribute merging via `set`, change detection via
  `hasChanged`, JSON serialisation) is modelled from the spec, and is
  marked `Modelled from the spec:` at each definition.
* Machine numbers that can go negative in JS (`this.length` after a buggy
  decrement, the `at` option, splice indices) are modelled as `Int`.
* Event emission is modelled by returning a trace: a list of pairs of the
  emitted event and the collection state at the moment `trigger` runs
  (dispatch is synchronous, so a listener observes exactly that state).
  Model-originating `change` events that are merely proxied through the
  collection are not part of the trace; the `add`, `remove`, `sort`,
  `update`, `reset` and `invalid` events are.
-/

namespace Skeletor

/-- A JavaScript attribute bag: association list from field name to value.
JS objects hold each key at most once; list entries with duplicate keys do
not correspond to any JS object, so theorems that need it carry a
`Nodup`-keys hypothesis. Lookup takes the first entry. -/
abbrev Attrs := List (String × Int)

/-- First-match attribute lookup (a JS property read on an attribute bag). -/
def attrLookup (a : Attrs) (k : String) : Option Int :=
  match a with
  | [] => none
  | (k', v) :: rest => if k' = k then some v else attrLookup rest k

/-- `modelId` of `collection.js` line 649: `attrs[this.model.prototype.idAttribute || 'id']`.
The default id attribute `'id'` is used (no claim exercises a custom
`idAttribute`). Returns `none` for JS `undefined`. -/
def modelId (attrs : Attrs) : Option Int :=
  attrLookup attrs "id"

/-- Modelled from the spec: a skeletor `Model` as consumed by `Collection`:
a process-unique client id `cid`, a mutable attribute bag, and the
`validationError` slot set at construction. -/
structure SkModel where
  cid : Nat
  attrs : Attrs
  validationError : Option String
deriving Repr, DecidableEq

/-- Key space of the `_byId` JS object: `inl` keys are `cid`s, `inr` keys
are resolved ids. In JS both live in one string key space but a cid string
(`"c12"`) never equals a stringified id, so the sum is faithful. -/
abbrev ByIdKey := Sum Nat Int

/-- First-match lookup in the `_byId` association list (JS property read). -/
def byIdLookup (l : List (ByIdKey × SkModel)) (k : ByIdKey) : Option SkModel :=
  match l with
  | [] => none
  | (k', m) :: rest => if k' = k then some m else byIdLookup rest k

/-- JS `delete this._byId[k]`: remove the key from the object. -/
def byIdDelete (l : List (ByIdKey × SkModel)) (k : ByIdKey) : List (ByIdKey × SkModel) :=
  match l with
  | [] => []
  | (k', m) :: rest => if k' = k then byIdDelete rest k else (k', m) :: byIdDelete rest k

/-- JS `this._byId[k] = m`: overwrite the key. -/
def byIdInsert (l : List (ByIdKey × SkModel)) (k : ByIdKey) (m : SkModel) :
    List (ByIdKey × SkModel) :=
  (k, m) :: byIdDelete l k

/-- Modelled from the spec: writing one attribute into a bag, as `Model#set`
does per key: an existing key keeps its position and gets the new value, a
new key is appended (JS object insertion order). -/
def setAttr (a : Attrs) (k : String) (v : Int) : Attrs :=
  if (attrLookup a k).isSome then a.map (fun p => if p.1 = k then (p.1, v) else p)
  else a ++ [(k, v)]

/-- Modelled from the spec: `existing.set(attrs, options)` merges every
key of `attrs` into the existing attribute bag. -/
def mergeAttrs (a new : Attrs) : Attrs :=
  new.foldl (fun acc kv => setAttr acc kv.1 kv.2) a

/-- Modelled from the spec: whether any attribute differs between the old
and new bags (`Model#hasChanged()` with no argument right after a `set`). -/
def attrsDiffer (old new : Attrs) : Bool :=
  ((old.map Prod.fst) ++ (new.map Prod.fst)).any
    (fun k => decide (attrLookup old k ≠ attrLookup new k))

/-- Modelled from the spec: `existing.hasChanged(sortAttr)` right after the
merge — with a string argument, whether that attribute changed; with `null`
(function comparator), whether anything changed. -/
def hasChangedAttr (old new : Attrs) (sortAttr : Option String) : Bool :=
  match sortAttr with
  | some k => decide (attrLookup old k ≠ attrLookup new k)
  | none => attrsDiffer old new

/-- The three comparator shapes of `collection.js` `sort` (lines 559-575):
an attribute name, a one-argument sort-key extractor, or a two-argument
comparator function. -/
inductive Comparator where
  | attr (name : String)
  | keyFn (f : SkModel → Int)
  | cmpFn (f : SkModel → SkModel → Int)

/-- lodash `sortBy` key order with `undefined` sorting last. -/
def optLE (a b : Option Int) : Bool :=
  match a, b with
  | none, none => true
  | none, some _ => false
  | some _, none => true
  | some x, some y => decide (x ≤ y)

/-- The `≤` test a given comparator induces on models. -/
def comparatorLE (c : Comparator) (a b : SkModel) : Bool :=
  match c with
  | .attr n => optLE (attrLookup a.attrs n) (attrLookup b.attrs n)
  | .keyFn f => decide (f a ≤ f b)
  | .cmpFn f => decide (f a b ≤ 0)

/-- Stable insertion used by the stable sort: the new element goes after
every element that is `≤` it. -/
def insertSorted (le : SkModel → SkModel → Bool) (m : SkModel) :
    List SkModel → List SkModel
  | [] => [m]
  | x :: xs => if le x m then x :: insertSorted le m xs else m :: x :: xs

/-- Stable sort (both lodash `sortBy` and ES2019 `Array#sort` are stable). -/
def sortStable (le : SkModel → SkModel → Bool) (l : List SkModel) : List SkModel :=
  l.foldl (fun acc m => insertSorted le m acc) []

/-- `sort` body (lines 564-572): a string or 1-argument comparator is used
as a key via `sortBy`, a 2-argument comparator via `Array#sort`. All three
are stable sorts by `comparatorLE`. -/
def sortModels (c : Comparator) (l : List SkModel) : List SkModel :=
  sortStable (comparatorLE c) l

/-- The collection state: `models` (authoritative order), the cached
`length` (a JS number, hence `Int`), the `_byId` index, the configured
`comparator`, plus the model class's validation hook and the process-wide
cid counter (Modelled from the spec: `Model` assigns a fresh, never reused
`cid` at construction and fills `validationError` from validation). -/
structure CState where
  models : List SkModel
  length : Int
  byId : List (ByIdKey × SkModel)
  comparator : Option Comparator
  validate : Attrs → Option String
  nextCid : Nat

/-- `new Collection()` with no models: `_reset` state (lines 234-242, 670-674). -/
def mkCollection (cmp : Option Comparator) (validate : Attrs → Option String) : CState :=
  { models := [], length := 0, byId := [], comparator := cmp,
    validate := validate, nextCid := 0 }

/-- An input item to `set`/`add`/`reset`: a bare attribute object or an
already constructed model. -/
inductive RawItem where
  | attrsItem (a : Attrs)
  | modelItem (m : SkModel)
deriving Repr, DecidableEq

/-- `this._isModel(model) ? model.attributes : model` (line 354). -/
def RawItem.attrsOf : RawItem → Attrs
  | .attrsItem a => a
  | .modelItem m => m.attrs

/-- The argument of `get` (line 526): a bare id/cid key, an attributes
object, or a model. -/
inductive GetArg where
  | key (k : ByIdKey)
  | attrsArg (a : Attrs)
  | modelArg (m : SkModel)
deriving Repr, DecidableEq

def RawItem.toGetArg : RawItem → GetArg
  | .attrsItem a => .attrsArg a
  | .modelItem m => .modelArg m

/-- `get` (lines 526-531):
`this._byId[obj] || this._byId[this.modelId(...)] || obj.cid && this._byId[obj.cid]`.
For a bare key only the first read can hit. For an attributes object the
first read misses (an object never stringifies to an index key), the second
uses its resolved id, and the third reads its `cid` *property* — on a raw
object that is an attribute, whose (numeric) value lands in the id key
space. For a model the second uses its attributes' id and the third its
real `cid`. -/
def getC (s : CState) (obj : GetArg) : Option SkModel :=
  match obj with
  | .key k => byIdLookup s.byId k
  | .attrsArg a =>
      ((modelId a).bind (fun i => byIdLookup s.byId (.inr i))).orElse
        (fun _ => (attrLookup a "cid").bind (fun c => byIdLookup s.byId (.inr c)))
  | .modelArg m =>
      ((modelId m.attrs).bind (fun i => byIdLookup s.byId (.inr i))).orElse
        (fun _ => byIdLookup s.byId (.inl m.cid))

/-- `has` (lines 534-536). -/
def hasC (s : CState) (obj : GetArg) : Bool :=
  (getC s obj).isSome

/-- `at` (lines 539-542): negative indices count from the cached `length`;
out of range reads give `undefined`. -/
def atC (s : CState) (index : Int) : Option SkModel :=
  let index := if index < 0 then index + s.length else index
  if index < 0 then none else s.models.get? index.toNat

/-- `_removeReference` (lines 734-740): purge both index keys. The
collection back-reference and the `'all'` unsubscription are not part of
the modelled state. -/
def removeReference (s : CState) (m : SkModel) : CState :=
  let b := byIdDelete s.byId (.inl m.cid)
  let b := match modelId m.attrs with
    | some i => byIdDelete b (.inr i)
    | none => b
  { s with byId := b }

/-- `_addReference` (lines 726-731): index under `cid` and, if resolvable,
under the id. The `'all'` subscription is not part of the modelled state. -/
def addReference (s : CState) (m : SkModel) : CState :=
  let b := byIdInsert s.byId (.inl m.cid) m
  let b := match modelId m.attrs with
    | some i => byIdInsert b (.inr i) m
    | none => b
  { s with byId := b }

/-- The collection-level events of `collection.js` (the model-originating
`change` events it merely proxies are not traced). `update` carries the
`{added, removed, merged}` summary; `add` carries `options.index` (an
`Option` since the option may be absent); `remove` carries the splice
index. -/
inductive SkEvent where
  | add (m : SkModel) (index : Option Int)
  | remove (m : SkModel) (index : Int)
  | sort
  | update (added removed merged : List SkModel)
  | reset
  | invalid (err : String)
deriving Repr, DecidableEq

/-- A traced emission: the event plus the collection state at the moment
`trigger` runs (synchronous dispatch, so re-entrant listeners observe
exactly this state). -/
abbrev Traced := SkEvent × CState

/-- The caller-facing options object; absent fields are `none`.
`_.extend` merges right-to-left. -/
structure Opts where
  add : Option Bool := none
  remove : Option Bool := none
  merge : Option Bool := none
  atOpt : Option Int := none
  silent : Option Bool := none
  sortOpt : Option Bool := none
  parse : Option Bool := none
  index : Option Int := none

/-- `_.extend(o1, o2)`: fields of `o2` win when present. -/
def extendO (o1 o2 : Opts) : Opts :=
  { add := o2.add <|> o1.add, remove := o2.remove <|> o1.remove,
    merge := o2.merge <|> o1.merge, atOpt := o2.atOpt <|> o1.atOpt,
    silent := o2.silent <|> o1.silent, sortOpt := o2.sortOpt <|> o1.sortOpt,
    parse := o2.parse <|> o1.parse, index := o2.index <|> o1.index }

/-- `setOptions` (line 248). -/
def setOptionsO : Opts := { add := some true, remove := some true, merge := some true }

/-- `addOptions` (line 249). -/
def addOptionsO : Opts := { add := some true, remove := some false }

/-- JS `array.indexOf(model)` on `models`: object identity, i.e. `cid`
equality (cids are process-unique); `-1` when absent. -/
def indexOfModel (l : List SkModel) (m : SkModel) : Int :=
  match l.findIdx? (fun x => decide (x.cid = m.cid)) with
  | some i => (i : Int)
  | none => -1

/-- JS `models.splice(index, 1)`: a negative start counts from the end
(clamped at 0), a start past the end removes nothing. -/
def jsSpliceRemove (l : List SkModel) (i : Int) : List SkModel :=
  let start : Nat := if i < 0 then ((l.length : Int) + i).toNat else min i.toNat l.length
  l.take start ++ l.drop (start + 1)

/-- Accumulator of `_removeModels`: evolving state, traced events, the
`removed` result list, and the shared `options.index` slot the loop
mutates. -/
structure RemAcc where
  s : CState
  trace : List Traced
  removed : List SkModel
  curIdx : Option Int

/-- One iteration of `_removeModels` (lines 694-715): locate, splice out,
decrement `length`, delete both index keys, then (unless silent) set
`options.index` and trigger the model's `remove` event — the traced state
is the one a re-entrant listener sees — then `_removeReference`. -/
def removeOne (silent : Bool) (acc : RemAcc) (arg : GetArg) : RemAcc :=
  match getC acc.s arg with
  | none => acc
  | some model =>
    let index := indexOfModel acc.s.models model
    let s1 : CState := { acc.s with
      models := jsSpliceRemove acc.s.models index,
      length := acc.s.length - 1 }
    let b := byIdDelete s1.byId (.inl model.cid)
    let b := match modelId model.attrs with
      | some i => byIdDelete b (.inr i)
      | none => b
    let s2 := { s1 with byId := b }
    let tr : List Traced :=
      if silent then [] else [(SkEvent.remove model index, s2)]
    let idx : Option Int := if silent then acc.curIdx else some index
    let s3 := removeReference s2 model
    { s := s3, trace := acc.trace ++ tr, removed := acc.removed ++ [model], curIdx := idx }

/-- `_removeModels` (lines 692-717). -/
def removeModels (s : CState) (args : List GetArg) (silent : Bool)
    (idx0 : Option Int) : RemAcc :=
  args.foldl (removeOne silent) { s := s, trace := [], removed := [], curIdx := idx0 }

structure RemoveRes where
  state : CState
  trace : List Traced
  removed : List SkModel

/-- Public `remove` (lines 297-307), list-shaped input: run
`_removeModels`, then one `update` summary event unless silent or nothing
was removed. -/
def removeC (s : CState) (args : List GetArg) (opts : Opts) : RemoveRes :=
  let silent := opts.silent.getD false
  let r := removeModels s args silent opts.index
  let tr := if silent = false ∧ r.removed ≠ [] then
      r.trace ++ [(SkEvent.update [] r.removed [], r.s)]
    else r.trace
  { state := r.s, trace := tr, removed := r.removed }

/-- Result of `_prepareModel`: the (possibly cid-bumped) state, the model
or `false` (here `none`), and the `invalid` emission if any. -/
structure PrepRes where
  s : CState
  model : Option SkModel
  trace : List Traced

/-- `_prepareModel` (lines 678-689): an existing model passes through
unchecked (the collection back-reference is not part of the modelled
state); bare attributes construct a model (Modelled from the spec:
`new this.model(attrs, options)` assigns the next cid and fills
`validationError` from validation). A validation failure drops the item
and triggers `invalid` with the failure detail. -/
def prepareModel (s : CState) (item : RawItem) : PrepRes :=
  match item with
  | .modelItem m => { s := s, model := some m, trace := [] }
  | .attrsItem a =>
    let m : SkModel := { cid := s.nextCid, attrs := a, validationError := s.validate a }
    let s' := { s with nextCid := s.nextCid + 1 }
    match m.validationError with
    | none => { s := s', model := some m, trace := [] }
    | some e => { s := s', model := none, trace := [(SkEvent.invalid e, s')] }

/-- JS mutates the model object in place, so every holder of the reference
(the `models` array and the `_byId` values) sees the new attributes; in the
value embedding the model is identified by its process-unique `cid`. -/
def updateModelValue (s : CState) (m' : SkModel) : CState :=
  { s with
    models := s.models.map (fun x => if x.cid = m'.cid then m' else x),
    byId := s.byId.map (fun p => if p.2.cid = m'.cid then (p.1, m') else p) }

/-- The merge arm of `set` (lines 353-356) composed with the collection's
own `_onModelEvent` re-keying (lines 746-757). Modelled from the spec:
`existing.set(attrs, options)` merges the attributes into the existing
model and fires its `change` event unless `silent`; the collection's
`'all'` listener then deletes the old id key and writes the new one when
the resolved id changed. Under `silent` no `change` fires, so no re-keying
happens. -/
def mergeExisting (s : CState) (ex : SkModel) (itemAttrs : Attrs) (silent : Bool) :
    CState × SkModel :=
  let prevId := modelId ex.attrs
  let merged := mergeAttrs ex.attrs itemAttrs
  let ex' : SkModel := { ex with attrs := merged }
  let s1 := updateModelValue s ex'
  let newId := modelId merged
  if silent = false ∧ prevId ≠ newId then
    let b := match prevId with
      | some p => byIdDelete s1.byId (.inr p)
      | none => s1.byId
    let b := match newId with
      | some i => byIdInsert b (.inr i) ex'
      | none => b
    ({ s1 with byId := b }, ex')
  else (s1, ex')

/-- JS `model !== existing`: a bare object is never the same reference as
a model; a model is the same object exactly when the cids coincide (cids
are process-unique). -/
def sameInstance : RawItem → SkModel → Bool
  | .modelItem m, ex => decide (m.cid = ex.cid)
  | .attrsItem _, _ => false

/-- The per-item result slot `models[i]` of `set`: overwritten with the
reconciled model, left as the raw input when `add` is off, or JS `false`
when construction failed validation. -/
inductive SetRet where
  | modelRef (cid : Nat)
  | raw (r : RawItem)
  | fls
deriving Repr, DecidableEq

/-- The effective booleans `set` reads off the extended options, plus the
precomputed `sortable`/`sortAttr` (lines 335-341). -/
structure SetCfg where
  addE : Bool
  mergeE : Bool
  removeE : Bool
  silent : Bool
  parseE : Bool
  sortable : Bool
  sortAttr : Option String

/-- The loop state of `set` (lines 329-339): the evolving collection, the
`set`/`toAdd`/`toMerge` arrays (JS holds object references; here the
process-unique cids, materialised against the state when used — `modelMap`
coincides with membership in `setL`), the per-item results, the `sort`
flag, and the `invalid` emissions. -/
structure LoopAcc where
  s : CState
  setL : List Nat
  toAdd : List Nat
  toMerge : List Nat
  ret : List SetRet
  sortFlag : Bool
  invalids : List Traced

/-- One iteration of the reconciliation loop of `set` (lines 346-376).
In the merge arm, `if (options.parse) attrs = existing.parse(attrs,
options)` passes the attributes through unchanged since `Model#parse` is
the identity by default (modelled from the spec). -/
def loopStep (cfg : SetCfg) (acc : LoopAcc) (item : RawItem) : LoopAcc :=
  match getC acc.s item.toGetArg with
  | some existing =>
    let doMerge := cfg.mergeE && !(sameInstance item existing)
    let mg := mergeExisting acc.s existing item.attrsOf cfg.silent
    let s1 := if doMerge then mg.1 else acc.s
    let sortFlag1 :=
      if doMerge then
        (if cfg.sortable && !acc.sortFlag then
          hasChangedAttr existing.attrs mg.2.attrs cfg.sortAttr
        else acc.sortFlag)
      else acc.sortFlag
    let toMerge1 := if doMerge then acc.toMerge ++ [existing.cid] else acc.toMerge
    let setL1 := if acc.setL.contains existing.cid then acc.setL
      else acc.setL ++ [existing.cid]
    { s := s1, setL := setL1, toAdd := acc.toAdd, toMerge := toMerge1,
      ret := acc.ret ++ [SetRet.modelRef existing.cid], sortFlag := sortFlag1,
      invalids := acc.invalids }
  | none =>
    if cfg.addE then
      let pm := prepareModel acc.s item
      match pm.model with
      | some m =>
        let s2 := addReference pm.s m
        { s := s2, setL := acc.setL ++ [m.cid], toAdd := acc.toAdd ++ [m.cid],
          toMerge := acc.toMerge, ret := acc.ret ++ [SetRet.modelRef m.cid],
          sortFlag := acc.sortFlag, invalids := acc.invalids }
      | none =>
        { acc with
          s := pm.s, ret := acc.ret ++ [SetRet.fls],
          invalids := acc.invalids ++ pm.trace }
    else { acc with ret := acc.ret ++ [SetRet.raw item] }

/-- Materialise a list of held references (cids) against a state. -/
def resolveCids (s : CState) (cids : List Nat) : List SkModel :=
  cids.filterMap (fun c => byIdLookup s.byId (.inl c))

/-- The `at` normalisation of `set` (lines 324-327): numeric coercion, clamp
down to `length`, then a negative value counts from the end plus one. -/
def resolveAt (a : Int) (len : Int) : Int :=
  let a1 := if a > len then len else a
  if a1 < 0 then a1 + len + 1 else a1

/-- The `splice` helper (lines 252-260): insert a list at an index clamped
to `[0, array.length]`. -/
def spliceList (arr insert : List SkModel) (at1 : Int) : List SkModel :=
  let atN : Nat := (min (max at1 0) (arr.length : Int)).toNat
  arr.take atN ++ insert ++ arr.drop atN

/-- `_.some(this.models, function(m, index) { return m !== set[index] })`
(lines 391-393): some position of `models` holds a different object than
`set` (a position past the end of `set` reads `undefined`, which differs
from any model). -/
def anyPositionDiffers (ms setM : List SkModel) : Bool :=
  match ms, setM with
  | [], _ => false
  | _ :: _, [] => true
  | m :: rest, x :: xs => decide (m ≠ x) || anyPositionDiffers rest xs

/-- The `add`-event loop of `set` (lines 408-412): the `i`-th added model
triggers `add` with `options.index` freshly set to `at + i` when an
explicit `at` was given, and otherwise left at whatever the shared options
object already held. -/
def addEvents (l : List SkModel) (base fallback : Option Int) (st : CState)
    (i : Int) : List Traced :=
  match l with
  | [] => []
  | m :: rest =>
    (SkEvent.add m (match base with
      | some a => some (a + i)
      | none => fallback), st) :: addEvents rest base fallback st (i + 1)

/-- The outputs of `set`: final state, event trace, per-item results, and
the materialised `toAdd`/`toRemove`/`toMerge` lists together with the
`sort`/`orderChanged` flags, the resolved `at` and the final value of the
shared `options.index` slot (these mirror the source's locals and are what
the emitted events are built from). -/
structure SetResult where
  state : CState
  trace : List Traced
  ret : List SetRet
  toAddM : List SkModel
  toRemoveM : List SkModel
  toMergeM : List SkModel
  toAddC : List Nat
  toMergeC : List Nat
  sortFlag : Bool
  orderChanged : Bool
  atR : Option Int
  idxAfter : Option Int

/-- The reconciliation loop of `set` (lines 343-376) over the whole input. -/
def setLoop (cfg : SetCfg) (s : CState) (items : List RawItem) : LoopAcc :=
  items.foldl (loopStep cfg)
    { s := s, setL := [], toAdd := [], toMerge := [], ret := [],
      sortFlag := false, invalids := [] }

/-- The stale models staged for removal (lines 379-383): current members
absent from `modelMap`. -/
def setToRemove (removeE : Bool) (acc : LoopAcc) : List SkModel :=
  if removeE then acc.s.models.filter (fun m => !(acc.setL.contains m.cid)) else []

/-- `if (toRemove.length) this._removeModels(toRemove, options)` (line 384). -/
def setRemovePhase (acc : LoopAcc) (toRemove : List SkModel) (silent : Bool)
    (idx0 : Option Int) : RemAcc :=
  if toRemove ≠ [] then
    removeModels acc.s (toRemove.map (fun m => GetArg.modelArg m)) silent idx0
  else { s := acc.s, trace := [], removed := [], curIdx := idx0 }

/-- The result of the structural update (lines 387-401): the new state, the
final `sort` flag and `orderChanged`. -/
structure StructRes where
  s3 : CState
  sortFlag2 : Bool
  orderChanged : Bool

/-- Structural update of `set` (lines 387-401): wholesale replacement by
the kept list when `add` and `remove` are both in force without a
comparator-driven sort, else a splice of the additions at `at` (or the
end). -/
def setStructural (sortable addE removeE : Bool) (acc : LoopAcc) (s2 : CState)
    (atR : Option Int) : StructRes :=
  let setM := resolveCids s2 acc.setL
  let replace := !sortable && addE && removeE
  if setM ≠ [] ∧ replace = true then
    let oc := decide (s2.length ≠ (setM.length : Int)) ||
      anyPositionDiffers s2.models setM
    let ms := spliceList [] setM 0
    { s3 := { s2 with models := ms, length := (ms.length : Int) },
      sortFlag2 := acc.sortFlag, orderChanged := oc }
  else if acc.toAdd ≠ [] then
    let sf := if sortable then true else acc.sortFlag
    let toAddMs := resolveCids s2 acc.toAdd
    let ms := spliceList s2.models toAddMs
      (match atR with | some a => a | none => s2.length)
    { s3 := { s2 with models := ms, length := (ms.length : Int) },
      sortFlag2 := sf, orderChanged := false }
  else { s3 := s2, sortFlag2 := acc.sortFlag, orderChanged := false }

/-- `if (sort) this.sort({silent: true})` (line 404): the flag is only ever
set when `sortable` holds, which requires a comparator, so the `none` arm
is unreachable from `set`. -/
def setSortPhase (s3 : CState) (sf : Bool) : CState :=
  if sf then
    { s3 with models := match s3.comparator with
        | some c => sortModels c s3.models
        | none => s3.models }
  else s3

/-- The event block of `set` (lines 406-422): per-added `add` (with
`options.index` only freshly set when `at` was given), then `sort` when
resorted or the order changed, then the `update` summary when any of the
three change lists is non-empty. -/
def setEvents (silent : Bool) (toAddM toRemove toMergeM : List SkModel)
    (toAddC toMergeC : List Nat) (sortFlag2 orderChanged : Bool)
    (atR curIdx : Option Int) (st : CState) : List Traced :=
  if silent then [] else
    addEvents toAddM atR curIdx st 0 ++
    (if sortFlag2 || orderChanged then [(SkEvent.sort, st)] else []) ++
    (if toAddC ≠ [] ∨ toRemove ≠ [] ∨ toMergeC ≠ [] then
      [(SkEvent.update toAddM toRemove toMergeM, st)] else [])

/-- `options = _.extend({}, setOptions, options)` (line 316). -/
def setEffOpts (opts : Opts) : Opts := extendO setOptionsO opts

/-- The effective per-call configuration `set` reads (lines 324-341). -/
def setCfgOf (s : CState) (opts : Opts) : SetCfg :=
  let o := setEffOpts opts
  { addE := o.add.getD false, mergeE := o.merge.getD false,
    removeE := o.remove.getD false, silent := o.silent.getD false,
    parseE := o.parse.getD false,
    sortable := s.comparator.isSome && o.atOpt.isNone && decide (o.sortOpt ≠ some false),
    sortAttr := match s.comparator with
      | some (Comparator.attr n) => some n
      | _ => none }

/-- The resolved `at` (lines 324-327), against the cached `length` at entry. -/
def setAtR (s : CState) (opts : Opts) : Option Int :=
  (setEffOpts opts).atOpt.map (fun a => resolveAt a s.length)

/-- `set` (lines 313-426) for an array argument, assembled from its phases.
`options.parse` with the default identity `Collection#parse` (line 636)
leaves the input unchanged, so the parse step is a no-op here. -/
def setC (s : CState) (items : List RawItem) (opts : Opts) : SetResult :=
  let cfg := setCfgOf s opts
  let atR := setAtR s opts
  let acc := setLoop cfg s items
  let toRemove := setToRemove cfg.removeE acc
  let rem := setRemovePhase acc toRemove cfg.silent (setEffOpts opts).index
  let str := setStructural cfg.sortable cfg.addE cfg.removeE acc rem.s atR
  let s4 := setSortPhase str.s3 str.sortFlag2
  let toAddM := resolveCids s4 acc.toAdd
  let toMergeM := resolveCids s4 acc.toMerge
  let evs := setEvents cfg.silent toAddM toRemove toMergeM acc.toAdd acc.toMerge
    str.sortFlag2 str.orderChanged atR rem.curIdx s4
  { state := s4, trace := acc.invalids ++ rem.trace ++ evs, ret := acc.ret,
    toAddM := toAddM, toRemoveM := toRemove, toMergeM := toMergeM,
    toAddC := acc.toAdd, toMergeC := acc.toMerge,
    sortFlag := str.sortFlag2, orderChanged := str.orderChanged, atR := atR,
    idxAfter := rem.curIdx }

/-- The options `add` hands to `set` (line 293):
`_.extend({merge: false}, options, addOptions)` — the caller's options
override the `merge` default, `addOptions` overrides the caller. -/
def addOptsOf (opts : Opts) : Opts :=
  extendO (extendO { merge := some false } opts) addOptionsO

/-- `add` (lines 292-294): delegate to `set` with `merge` defaulted off and
`addOptions = {add: true, remove: false}` overriding whatever the caller
supplied. -/
def addC (s : CState) (items : List RawItem) (opts : Opts) : SetResult :=
  setC s items (addOptsOf opts)

/-- `toJSON` (lines 280-282). Modelled from the spec: `Model#toJSON`
returns a shallow clone of the model's attributes. -/
def toJSONc (s : CState) : List RawItem :=
  s.models.map (fun m => RawItem.attrsItem m.attrs)

/-- `reset` (lines 447-457): sever every model's references, `_reset` the
internal state, re-`add` with `silent` defaulted on (the caller's options
override), then a `reset` event unless the caller asked for silence. -/
def resetC (s : CState) (items : List RawItem) (opts : Opts) : SetResult :=
  let s1 := s.models.foldl (fun st m => removeReference st m) s
  let s2 : CState := { s1 with length := 0, models := [], byId := [] }
  let r := addC s2 items (extendO { silent := some true } opts)
  let tr := if opts.silent.getD false then r.trace
    else r.trace ++ [(SkEvent.reset, r.state)]
  { r with trace := tr }

/-- `sort` (lines 559-575): without a comparator this throws
`Error('Cannot sort a set without a comparator')`; otherwise sort stably in
place and emit `sort` unless silent. -/
def sortC (s : CState) (opts : Opts) : Except String (CState × List Traced) :=
  match s.comparator with
  | none => Except.error "Cannot sort a set without a comparator"
  | some c =>
    let s' := { s with models := sortModels c s.models }
    Except.ok (s', if opts.silent.getD false then [] else [(SkEvent.sort, s')])

/-- What an iterator step yields, per kind: the model, its resolved id, or
the `[id, model]` pair. -/
inductive IterValue where
  | modelV (m : SkModel)
  | keyV (id : Option Int)
  | entryV (id : Option Int) (m : SkModel)
deriving Repr, DecidableEq

/-- The `{value, done}` object returned by `next`. -/
structure IterResult where
  value : Option IterValue
  done : Bool
deriving Repr, DecidableEq

/-- A `CollectionIterator` (lines 779-783): the held collection reference
(`true` until exhaustion drops it), the kind, and the cursor. The live
collection the reference points at is supplied to `iterNext` at each call,
since the JS iterator reads the collection afresh on every `next`. -/
structure CollectionIterator where
  hasCollection : Bool
  kind : Nat
  idx : Nat
deriving Repr, DecidableEq

def ITERATOR_VALUES : Nat := 1
def ITERATOR_KEYS : Nat := 2
def ITERATOR_KEYSVALUES : Nat := 3

/-- `values()` (lines 654-656). -/
def valuesC : CollectionIterator :=
  { hasCollection := true, kind := ITERATOR_VALUES, idx := 0 }

/-- `keys()` (lines 659-661). -/
def keysC : CollectionIterator :=
  { hasCollection := true, kind := ITERATOR_KEYS, idx := 0 }

/-- `entries()` (lines 664-666). -/
def entriesC : CollectionIterator :=
  { hasCollection := true, kind := ITERATOR_KEYSVALUES, idx := 0 }

/-- `CollectionIterator.prototype.next` (lines 799-828), with `s` the live
state of the referenced collection at call time. -/
def iterNext (it : CollectionIterator) (s : CState) :
    IterResult × CollectionIterator :=
  if it.hasCollection then
    if (it.idx : Int) < s.length then
      let model? := atC s (it.idx : Int)
      let it' := { it with idx := it.idx + 1 }
      let value : Option IterValue :=
        model?.map (fun model =>
          if it.kind = ITERATOR_VALUES then IterValue.modelV model
          else if it.kind = ITERATOR_KEYS then IterValue.keyV (modelId model.attrs)
          else IterValue.entryV (modelId model.attrs) model)
      ({ value := value, done := false }, it')
    else ({ value := none, done := true }, { it with hasCollection := false })
  else ({ value := none, done := true }, it)

/-- Run `next` repeatedly, feeding the (possibly mutated) live collection
state at each call. -/
def iterRun (it : CollectionIterator) (ss : List CState) :
    List IterResult × CollectionIterator :=
  match ss with
  | [] => ([], it)
  | s :: rest =>
    let p := iterNext it s
    let q := iterRun p.2 rest
    (p.1 :: q.1, q.2)

/-- A public mutation call of the collection, as quantified over by the
invariant claim: `add`, `remove`, `set`, `reset`, each with an arbitrary
options object. Items are bare attribute objects (the data-reconciliation
inputs the spec describes). -/
inductive COp where
  | addOp (items : List Attrs) (opts : Opts)
  | removeOp (args : List GetArg) (opts : Opts)
  | setOp (items : List Attrs) (opts : Opts)
  | resetOp (items : List Attrs) (opts : Opts)

/-- Execute one public call (state only). -/
def stepOp (s : CState) (op : COp) : CState :=
  match op with
  | .addOp items opts => (addC s (items.map RawItem.attrsItem) opts).state
  | .removeOp args opts => (removeC s args opts).state
  | .setOp items opts => (setC s (items.map RawItem.attrsItem) opts).state
  | .resetOp items opts => (resetC s (items.map RawItem.attrsItem) opts).state

/-- Execute a sequence of public calls. -/
def runOps (s : CState) (ops : List COp) : CState :=
  ops.foldl stepOp s

/-- What a `_byId` key promises about the model stored under it. -/
def keyMatches : ByIdKey → SkModel → Prop
  | .inl c, m => m.cid = c
  | .inr i, m => modelId m.attrs = some i

instance (k : ByIdKey) (m : SkModel) : Decidable (keyMatches k m) :=
  match k with
  | .inl c => (inferInstance : Decidable (m.cid = c))
  | .inr i => (inferInstance : Decidable (modelId m.attrs = some i))

/-- Well-formedness of a collection state, generalised by a list of
`pending` models that are already registered in `_byId` but not yet
spliced into `models` (mid-`set`, the `toAdd` models are in exactly this
state): the cached `length` matches, cids are pairwise distinct and below
the cid counter, every (member or pending) model is indexed under its cid
and its resolved id, the index has no duplicate keys, and every index
entry points at a member (or pending) model under a truthful key. -/
def WFX (s : CState) (pending : List SkModel) : Prop :=
  s.length = (s.models.length : Int) ∧
  (s.models ++ pending).Pairwise (fun a b => a.cid ≠ b.cid) ∧
  (∀ m ∈ s.models ++ pending, m.cid < s.nextCid) ∧
  (∀ m ∈ s.models ++ pending, byIdLookup s.byId (.inl m.cid) = some m) ∧
  (∀ m ∈ s.models ++ pending, ∀ i ∈ (modelId m.attrs).toList,
    byIdLookup s.byId (.inr i) = some m) ∧
  s.byId.Pairwise (fun a b => a.1 ≠ b.1) ∧
  (∀ p ∈ s.byId, p.2 ∈ s.models ++ pending ∧ keyMatches p.1 p.2)

instance (s : CState) (pending : List SkModel) : Decidable (WFX s pending) := by
  unfold WFX
  have h3 : Decidable (∀ m ∈ s.models ++ pending, m.cid < s.nextCid) :=
    List.decidableBAll _ _
  have h4 : Decidable (∀ m ∈ s.models ++ pending,
      byIdLookup s.byId (.inl m.cid) = some m) :=
    List.decidableBAll _ _
  have hinner : DecidablePred (fun m : SkModel =>
      ∀ i ∈ (modelId m.attrs).toList, byIdLookup s.byId (.inr i) = some m) :=
    fun m => List.decidableBAll _ _
  have h5 : Decidable (∀ m ∈ s.models ++ pending,
      ∀ i ∈ (modelId m.attrs).toList, byIdLookup s.byId (.inr i) = some m) :=
    List.decidableBAll _ _
  have h7 : Decidable (∀ p ∈ s.byId, p.2 ∈ s.models ++ pending ∧ keyMatches p.1 p.2) :=
    List.decidableBAll _ _
  infer_instance

/-- Well-formedness of a collection state between public calls. -/
def WF (s : CState) : Prop := WFX s []

instance (s : CState) : Decidable (WF s) := by
  unfold WF; infer_instance

/-- The invariant claimed by C1: `length` matches `models`, every member
is indexed under its `cid` and (when resolvable) its id, and the index
holds no entry for a model that is no longer a member. -/
def InvC1 (s : CState) : Prop :=
  s.length = (s.models.length : Int) ∧
  (∀ m ∈ s.models, byIdLookup s.byId (.inl m.cid) = some m ∧
    ∀ i ∈ (modelId m.attrs).toList, byIdLookup s.byId (.inr i) = some m) ∧
  (∀ p ∈ s.byId, p.2 ∈ s.models)

instance (s : CState) : Decidable (InvC1 s) := by
  unfold InvC1
  have hinner : DecidablePred (fun m : SkModel =>
      byIdLookup s.byId (.inl m.cid) = some m ∧
      ∀ i ∈ (modelId m.attrs).toList, byIdLookup s.byId (.inr i) = some m) :=
    fun m => @instDecidableAnd _ _ _ (List.decidableBAll _ _)
  have h2 : Decidable (∀ m ∈ s.models, byIdLookup s.byId (.inl m.cid) = some m ∧
      ∀ i ∈ (modelId m.attrs).toList, byIdLookup s.byId (.inr i) = some m) :=
    List.decidableBAll _ _
  have h3 : Decidable (∀ p ∈ s.byId, p.2 ∈ s.models) :=
    List.decidableBAll _ _
  infer_instance

/-- A JS attribute object: each key appears once (a JS object cannot hold
a duplicate key, so only such lists denote real inputs). -/
def jsObj (a : Attrs) : Prop := (a.map Prod.fst).Nodup

instance (a : Attrs) : Decidable (jsObj a) := by
  unfold jsObj; infer_instance

def itemsJsObjs (items : List Attrs) : Prop := ∀ a ∈ items, jsObj a

instance (items : List Attrs) : Decidable (itemsJsObjs items) := by
  unfold itemsJsObjs
  exact List.decidableBAll _ _

def itemsNoCid (items : List Attrs) : Prop := ∀ a ∈ items, attrLookup a "cid" = none

instance (items : List Attrs) : Decidable (itemsNoCid items) := by
  unfold itemsNoCid
  exact List.decidableBAll _ _

/-- The safety condition of the amended C1: every input attribute bag is a
real JS object (no duplicate keys) and carries no `cid` property. The `cid`
read of `get` (line 530) lets a raw attribute object select a merge target
through the id key space; a silent merge reached that way can change the
target's resolved id without the index being re-keyed, and even a
non-silent one clobbers another member's id entry when the new id
collides — either way a member loses a truthful index entry, which is the
counterexample to the claim as stated. `remove` takes no raw items. -/
def opSafe : COp → Prop
  | .addOp items _ => itemsJsObjs items ∧ itemsNoCid items
  | .setOp items _ => itemsJsObjs items ∧ itemsNoCid items
  | .resetOp items _ => itemsJsObjs items ∧ itemsNoCid items
  | .removeOp _ _ => True

instance (op : COp) : Decidable (opSafe op) := by
  unfold opSafe
  match op with
  | .addOp items opts => infer_instance
  | .setOp items opts => infer_instance
  | .resetOp items opts => infer_instance
  | .removeOp _ _ => infer_instance

/-- The cid list of a model list (JS holds the object references; cids are
process-unique, so this is the reference list). -/
def cidsOf (l : List SkModel) : List Nat := l.map (fun m => m.cid)

/-- The induction invariant of the `set` reconciliation loop (lines
343-376): some list of `pending` models — constructed and `_addReference`d
but not yet spliced into `models` — witnesses the generalised
well-formedness; `toAdd` holds exactly their references; the `set` array
(`setL`) is duplicate-free, names only reachable models and contains
`toAdd`. -/
def LoopInv (acc : LoopAcc) : Prop :=
  ∃ pending : List SkModel,
    WFX acc.s pending ∧
    acc.toAdd = cidsOf pending ∧
    acc.setL.Nodup ∧
    (∀ c ∈ acc.setL, ∃ m ∈ acc.s.models ++ pending, m.cid = c) ∧
    (∀ c ∈ acc.toAdd, c ∈ acc.setL)

/-- The event names (without the traced states) the `add`-event loop
produces: the `i`-th added model's event carries `at + i` when `at` was
given and otherwise the inherited `options.index` value. -/
def addEventNames (l : List SkModel) (base fallback : Option Int) (i : Int) :
    List SkEvent :=
  match l with
  | [] => []
  | m :: rest =>
    SkEvent.add m (match base with
      | some a => some (a + i)
      | none => fallback) :: addEventNames rest base fallback (i + 1)

/-- The property C2 asserts of every traced `remove` emission: at the
moment the event fires, the state carries no `_byId` entry for the removed
model's cid, none for its resolved id, and `get` with that id observes
`undefined`. Non-`remove` emissions are unconstrained. -/
def removedIndexPurged : Traced → Prop
  | (SkEvent.remove m _, st) =>
      byIdLookup st.byId (.inl m.cid) = none ∧
      ∀ i ∈ (modelId m.attrs).toList,
        byIdLookup st.byId (.inr i) = none ∧ getC st (.key (.inr i)) = none
  | _ => True

/-- A trivial model class for concrete witnesses: no validation. -/
def noValidate : Attrs → Option String := fun _ => none

/-- The empty collection every witness starts from. -/
def emptyColl : CState := mkCollection none noValidate

/-- The single model of the C2 witness collection. -/
def wModelC2 : SkModel := { cid := 0, attrs := [("id", 7)], validationError := none }

/-- The model the C4 counterexample adds. -/
def wModelC4 : SkModel := { cid := 0, attrs := [("id", 1)], validationError := none }

/-- A validating model class for the C8 witness: an attribute `bad = 1`
is a validation failure. -/
def badValidate : Attrs → Option String :=
  fun a => if attrLookup a "bad" = some 1 then some "bad value" else none

/-- A one-model collection, written out literally, for the C2 witness. -/
def wStateC2 : CState :=
  { models := [wModelC2], length := 1,
    byId := [(Sum.inl 0, wModelC2), (Sum.inr 7, wModelC2)],
    comparator := none, validate := noValidate, nextCid := 1 }

/-- The id-less model of the C6 counterexample. -/
def wModelC6 : SkModel := { cid := 0, attrs := [("x", 5)], validationError := none }

/-- A one-model collection whose model has no resolvable id, for the C6
counterexample. -/
def wStateC6 : CState :=
  { models := [wModelC6], length := 1, byId := [(Sum.inl 0, wModelC6)],
    comparator := none, validate := noValidate, nextCid := 1 }

/-! ## Theorems -/


@[simp] theorem byIdLookup_nil (k : ByIdKey) : byIdLookup [] k = none := rfl

@[simp] theorem byIdLookup_cons (k' : ByIdKey) (m : SkModel)
    (l : List (ByIdKey × SkModel)) (k : ByIdKey) :
    byIdLookup ((k', m) :: l) k = if k' = k then some m else byIdLookup l k := rfl

@[simp] theorem byIdLookup_delete (l : List (ByIdKey × SkModel)) (k k' : ByIdKey) :
    byIdLookup (byIdDelete l k) k' = if k' = k then none else byIdLookup l k' := by
  induction l with
  | nil => simp [byIdDelete]
  | cons p rest ih =>
    obtain ⟨pk, pm⟩ := p
    simp only [byIdDelete, byIdLookup]
    by_cases h1 : pk = k <;> by_cases h2 : k' = k <;> by_cases h3 : pk = k' <;>
      simp_all [byIdLookup]

@[simp] theorem byIdLookup_insert (l : List (ByIdKey × SkModel)) (k k' : ByIdKey)
    (m : SkModel) :
    byIdLookup (byIdInsert l k m) k' = if k = k' then some m else byIdLookup l k' := by
  by_cases h : k = k'
  · subst h; simp [byIdInsert]
  · have h2 : ¬ (k' = k) := fun hh => h hh.symm
    simp [byIdInsert, h, h2]

/-- C9: For every collection whose `comparator` is not configured, `sort`
raises `Error('Cannot sort a set without a comparator')` synchronously
(line 561); the error return carries no successor state and no events, so
`models` is untouched and nothing is emitted. -/
theorem claim_C9_sort_without_comparator_throws (s : CState) (opts : Opts)
    (h : s.comparator = none) :
    sortC s opts = Except.error "Cannot sort a set without a comparator" := by
  simp [sortC, h]

theorem claim_C9_witness :
    emptyColl.comparator = none ∧
    sortC emptyColl {} = Except.error "Cannot sort a set without a comparator" :=
  ⟨rfl, claim_C9_sort_without_comparator_throws emptyColl {} rfl⟩

theorem iterNext_not_has (it : CollectionIterator) (s : CState)
    (h : it.hasCollection = false) :
    iterNext it s = ({ value := none, done := true }, it) := by
  simp [iterNext, h]

theorem iterRun_done (it : CollectionIterator) (h : it.hasCollection = false)
    (ss : List CState) : ∀ r ∈ (iterRun it ss).1, r.done = true := by
  induction ss with
  | nil => simp [iterRun]
  | cons s rest ih =>
    intro r hr
    simp only [iterRun, iterNext_not_has it s h, List.mem_cons] at hr
    rcases hr with h1 | h2
    · simp [h1]
    · exact ih r h2

/-- C7: once a `next` call finds the cursor at or past the live
collection's current `length`, it returns a done result, and every later
`next` also returns done even against later (e.g. grown) collection
states: exhaustion drops the collection reference (lines 822-827).
The iterators `values()`, `keys()` and `entries()` start exactly in the
states quantified here (`hasCollection` set, cursor 0). -/
theorem claim_C7_iterator_exhaustion_permanent (it : CollectionIterator)
    (s : CState) (h : ¬ ((it.idx : Int) < s.length)) (ss : List CState) :
    ∀ r ∈ (iterRun it (s :: ss)).1, r.done = true := by
  have hstep : (iterNext it s).1.done = true ∧ (iterNext it s).2.hasCollection = false := by
    by_cases hc : it.hasCollection
    · simp [iterNext, hc, h]
    · simp only [Bool.not_eq_true] at hc
      simp [iterNext, hc]
  intro r hr
  simp only [iterRun, List.mem_cons] at hr
  rcases hr with h1 | h2
  · rw [h1]; exact hstep.1
  · exact iterRun_done _ hstep.2 ss r h2

theorem claim_C7_witness :
    (¬ ((valuesC.idx : Int) < emptyColl.length)) ∧
    ∀ r ∈ (iterRun valuesC
      [emptyColl, (setC emptyColl [RawItem.attrsItem [("id", 1)]] {}).state]).1,
      r.done = true :=
  ⟨by decide, claim_C7_iterator_exhaustion_permanent valuesC emptyColl (by decide) _⟩

theorem addEvents_shape (l : List SkModel) (b f : Option Int) (st : CState)
    (i : Int) : ∀ ev ∈ addEvents l b f st i, ∃ m idx, ev = (SkEvent.add m idx, st) := by
  induction l generalizing i with
  | nil => simp [addEvents]
  | cons m rest ih =>
    intro ev hev
    simp only [addEvents, List.mem_cons] at hev
    rcases hev with h | h
    · exact ⟨m, _, h⟩
    · exact ih (i + 1) ev h

theorem removeOne_trace_purged (silent : Bool) (acc : RemAcc) (arg : GetArg)
    (h : ∀ ev ∈ acc.trace, removedIndexPurged ev) :
    ∀ ev ∈ (removeOne silent acc arg).trace, removedIndexPurged ev := by
  cases hg : getC acc.s arg with
  | none => simpa [removeOne, hg] using h
  | some model =>
    intro ev hev
    simp only [removeOne, hg, List.mem_append] at hev
    rcases hev with hev | hev
    · exact h ev hev
    · by_cases hs : silent
      · simp [hs] at hev
      · rw [if_neg hs, List.mem_singleton] at hev
        subst hev
        cases hid : modelId model.attrs with
        | none => simp [removedIndexPurged, hid]
        | some i => simp [removedIndexPurged, hid, getC]

theorem removeModels_trace_purged (silent : Bool) (args : List GetArg)
    (acc : RemAcc) (h : ∀ ev ∈ acc.trace, removedIndexPurged ev) :
    ∀ ev ∈ (args.foldl (removeOne silent) acc).trace, removedIndexPurged ev := by
  induction args generalizing acc with
  | nil => exact h
  | cons a rest ih =>
    exact ih (removeOne silent acc a) (removeOne_trace_purged silent acc a h)

theorem removeModels_trace_purged_all (s : CState) (args : List GetArg)
    (silent : Bool) (idx0 : Option Int) :
    ∀ ev ∈ (removeModels s args silent idx0).trace, removedIndexPurged ev := by
  unfold removeModels
  exact removeModels_trace_purged silent args _ (by simp)

theorem loop_invalids_purged (cfg : SetCfg) (items : List RawItem)
    (acc : LoopAcc) (h : ∀ ev ∈ acc.invalids, removedIndexPurged ev) :
    ∀ ev ∈ (items.foldl (loopStep cfg) acc).invalids, removedIndexPurged ev := by
  induction items generalizing acc with
  | nil => exact h
  | cons item rest ih =>
    refine ih (loopStep cfg acc item) ?_
    intro ev hev
    cases hg : getC acc.s item.toGetArg with
    | some existing =>
      simp only [loopStep, hg] at hev
      exact h ev hev
    | none =>
      by_cases ha : cfg.addE
      · simp only [loopStep, hg, ha, if_true] at hev
        cases hm : (prepareModel acc.s item).model with
        | some m => simp only [hm] at hev; exact h ev hev
        | none =>
          simp only [hm, List.mem_append] at hev
          rcases hev with hev | hev
          · exact h ev hev
          · cases item with
            | modelItem m => simp [prepareModel] at hm
            | attrsItem a =>
              simp only [prepareModel] at hev
              rcases hv : acc.s.validate a with _ | e
              · simp [hv] at hev
              · simp only [hv, List.mem_singleton] at hev
                subst hev
                simp [removedIndexPurged]
      · simp only [Bool.not_eq_true] at ha
        simp only [loopStep, hg, ha, Bool.false_eq_true, if_false] at hev
        exact h ev hev

theorem setLoop_invalids_purged (cfg : SetCfg) (s : CState)
    (items : List RawItem) :
    ∀ ev ∈ (setLoop cfg s items).invalids, removedIndexPurged ev := by
  unfold setLoop
  exact loop_invalids_purged cfg items _ (by simp)

theorem setRemovePhase_trace_purged (acc : LoopAcc) (toRemove : List SkModel)
    (silent : Bool) (idx0 : Option Int) :
    ∀ ev ∈ (setRemovePhase acc toRemove silent idx0).trace, removedIndexPurged ev := by
  unfold setRemovePhase
  split
  · exact removeModels_trace_purged_all _ _ _ _
  · simp

theorem setEvents_purged (silent : Bool) (toAddM toRemove toMergeM : List SkModel)
    (toAddC toMergeC : List Nat) (sf oc : Bool) (atR curIdx : Option Int)
    (st : CState) :
    ∀ ev ∈ setEvents silent toAddM toRemove toMergeM toAddC toMergeC sf oc atR
        curIdx st, removedIndexPurged ev := by
  intro ev hev
  simp only [setEvents] at hev
  split at hev
  · simp at hev
  · rcases List.mem_append.mp hev with hev | hev
    · rcases List.mem_append.mp hev with hev | hev
      · obtain ⟨m, idx, rfl⟩ := addEvents_shape _ _ _ _ _ ev hev
        simp [removedIndexPurged]
      · split at hev
        · simp only [List.mem_singleton] at hev
          subst hev; simp [removedIndexPurged]
        · simp at hev
    · split at hev
      · simp only [List.mem_singleton] at hev
        subst hev; simp [removedIndexPurged]
      · simp at hev

/-- C2: whenever `_removeModels` (reached from public `remove` or from
`set`) triggers a model's `remove` event, both `_byId` entries — the cid
key and, when the id resolves, the id key — are already deleted in the
state the event dispatches against, so a re-entrant `get(removedId)` on
the same collection observes `undefined` (lines 698-711: the deletes at
704-706 precede the trigger at 710). Stated for every traced emission of
both public entry points. -/
theorem claim_C2_index_purged_before_remove_event :
    (∀ (s : CState) (args : List GetArg) (opts : Opts),
      ∀ ev ∈ (removeC s args opts).trace, removedIndexPurged ev) ∧
    (∀ (s : CState) (items : List RawItem) (opts : Opts),
      ∀ ev ∈ (setC s items opts).trace, removedIndexPurged ev) := by
  constructor
  · intro s args opts ev hev
    have hbase : ∀ e ∈ (removeModels s args (opts.silent.getD false) opts.index).trace,
        removedIndexPurged e := removeModels_trace_purged_all _ _ _ _
    simp only [removeC] at hev
    split at hev
    · rcases List.mem_append.mp hev with hev | hev
      · exact hbase ev hev
      · simp only [List.mem_singleton] at hev
        subst hev
        simp [removedIndexPurged]
    · exact hbase ev hev
  · intro s items opts ev hev
    simp only [setC] at hev
    rcases List.mem_append.mp hev with hev | hev
    · rcases List.mem_append.mp hev with hev | hev
      · exact setLoop_invalids_purged _ _ _ ev hev
      · exact setRemovePhase_trace_purged _ _ _ _ ev hev
    · exact setEvents_purged _ _ _ _ _ _ _ _ _ _ _ ev hev

theorem insertSorted_perm (le : SkModel → SkModel → Bool) (m : SkModel)
    (l : List SkModel) : List.Perm (insertSorted le m l) (m :: l) := by
  induction l with
  | nil => exact List.Perm.refl _
  | cons x xs ih =>
    by_cases h : le x m
    · simp only [insertSorted, h, if_true]
      exact List.Perm.trans (List.Perm.cons x ih) (List.Perm.swap m x xs)
    · simp only [insertSorted]
      rw [if_neg h]

theorem foldl_insertSorted_perm (le : SkModel → SkModel → Bool)
    (l : List SkModel) : ∀ acc : List SkModel,
    List.Perm (l.foldl (fun a m => insertSorted le m a) acc) (acc ++ l) := by
  induction l with
  | nil => intro acc; simp
  | cons x xs ih =>
    intro acc
    rw [List.foldl_cons]
    refine List.Perm.trans (ih (insertSorted le x acc)) ?_
    refine List.Perm.trans (List.Perm.append_right xs (insertSorted_perm le x acc)) ?_
    exact (List.perm_middle).symm

theorem sortStable_perm (le : SkModel → SkModel → Bool) (l : List SkModel) :
    List.Perm (sortStable le l) l := by
  simpa using foldl_insertSorted_perm le l []

theorem sortModels_perm (c : Comparator) (l : List SkModel) :
    List.Perm (sortModels c l) l :=
  sortStable_perm _ l

theorem mem_spliceList_of_mem_left (arr insert : List SkModel) (at1 : Int)
    (m : SkModel) (h : m ∈ arr) : m ∈ spliceList arr insert at1 := by
  have h2 : m ∈ arr.take ((min (max at1 0) (arr.length : Int)).toNat) ++
      arr.drop ((min (max at1 0) (arr.length : Int)).toNat) := by
    rw [List.take_append_drop]; exact h
  simp only [spliceList, List.mem_append]
  rcases List.mem_append.mp h2 with h3 | h3
  · exact Or.inl (Or.inl h3)
  · exact Or.inr h3

theorem prepareModel_models (s : CState) (item : RawItem) :
    (prepareModel s item).s.models = s.models := by
  cases item with
  | modelItem m => rfl
  | attrsItem a =>
    rcases hv : s.validate a with _ | e <;> simp [prepareModel, hv]

theorem addReference_models (s : CState) (m : SkModel) :
    (addReference s m).models = s.models := rfl

theorem mergeExisting_models (s : CState) (ex : SkModel) (a : Attrs)
    (sil : Bool) :
    (mergeExisting s ex a sil).1.models =
      s.models.map (fun x => if x.cid = ex.cid then
        { ex with attrs := mergeAttrs ex.attrs a } else x) := by
  by_cases hc : (sil = false ∧ modelId ex.attrs ≠ modelId (mergeAttrs ex.attrs a))
  · simp [mergeExisting, updateModelValue, hc]
  · simp [mergeExisting, updateModelValue, hc]

theorem loopStep_models_cidlist (cfg : SetCfg) (acc : LoopAcc) (item : RawItem) :
    (loopStep cfg acc item).s.models.map (fun m => m.cid) =
      acc.s.models.map (fun m => m.cid) := by
  cases hg : getC acc.s item.toGetArg with
  | some existing =>
    simp only [loopStep, hg]
    by_cases hd : (cfg.mergeE && !(sameInstance item existing)) = true
    · simp only [hd, if_true, mergeExisting_models, List.map_map]
      refine List.map_congr_left ?_
      intro x _
      by_cases h : x.cid = existing.cid <;> simp [h]
    · simp only [Bool.not_eq_true] at hd
      simp [hd]
  | none =>
    by_cases ha : cfg.addE = true
    · simp only [loopStep, hg, ha, if_true]
      cases hm : (prepareModel acc.s item).model with
      | some m => simp [addReference_models, prepareModel_models]
      | none => simp [prepareModel_models]
    · simp only [Bool.not_eq_true] at ha
      simp [loopStep, hg, ha]

theorem foldl_loopStep_cidlist (cfg : SetCfg) (items : List RawItem)
    (acc : LoopAcc) :
    ((items.foldl (loopStep cfg) acc).s.models.map (fun m => m.cid)) =
      acc.s.models.map (fun m => m.cid) := by
  induction items generalizing acc with
  | nil => rfl
  | cons it rest ih => rw [List.foldl_cons, ih, loopStep_models_cidlist]

theorem setLoop_models_cidlist (cfg : SetCfg) (s : CState) (items : List RawItem) :
    (setLoop cfg s items).s.models.map (fun m => m.cid) =
      s.models.map (fun m => m.cid) :=
  foldl_loopStep_cidlist cfg items _

theorem setToRemove_false (acc : LoopAcc) : setToRemove false acc = [] := by
  simp [setToRemove]

theorem setRemovePhase_nil (acc : LoopAcc) (silent : Bool) (idx0 : Option Int) :
    setRemovePhase acc [] silent idx0 =
      { s := acc.s, trace := [], removed := [], curIdx := idx0 } := by
  simp [setRemovePhase]

theorem setStructural_no_remove_mem (sortable addE : Bool) (acc : LoopAcc)
    (s2 : CState) (atR : Option Int) :
    ∀ m ∈ s2.models, m ∈ (setStructural sortable addE false acc s2 atR).s3.models := by
  intro m hm
  have hrep : (!sortable && addE && false) = false := by simp
  simp only [setStructural, hrep]
  rw [if_neg (by simp)]
  split
  · exact mem_spliceList_of_mem_left _ _ _ m hm
  · exact hm

theorem setSortPhase_mem (s3 : CState) (sf : Bool) :
    ∀ m ∈ s3.models, m ∈ (setSortPhase s3 sf).models := by
  intro m hm
  unfold setSortPhase
  split
  · cases hc : s3.comparator with
    | none => simpa [hc] using hm
    | some c =>
      simp only [hc]
      exact ((sortModels_perm c s3.models).mem_iff).mpr hm
  · exact hm

theorem setC_models_frame_no_remove (s : CState) (items : List RawItem)
    (opts : Opts) (hrm : (setCfgOf s opts).removeE = false) :
    ∀ m ∈ s.models, ∃ m' ∈ (setC s items opts).state.models, m'.cid = m.cid := by
  intro m hm
  have h1 : m.cid ∈ (setLoop (setCfgOf s opts) s items).s.models.map (fun x => x.cid) := by
    rw [setLoop_models_cidlist]
    exact List.mem_map_of_mem _ hm
  obtain ⟨m1, hm1, hc1⟩ := List.mem_map.mp h1
  refine ⟨m1, ?_, hc1⟩
  show m1 ∈ (setC s items opts).state.models
  simp only [setC, hrm, setToRemove_false, setRemovePhase_nil]
  exact setSortPhase_mem _ _ m1 (setStructural_no_remove_mem _ _ _ _ _ m1 hm1)

/-- C10: `add` delegates to `set` with the `add` and `remove` options
forced to `true` and `false` (line 293: `addOptions` is extended last, so
it overrides any caller-supplied values), and consequently never removes
an existing member: every model present before the call is still present
(same process-unique cid; a merge may have updated its attributes in
place) after it. -/
theorem claim_C10_add_never_removes :
    (∀ opts : Opts,
      (addOptsOf opts).add = some true ∧ (addOptsOf opts).remove = some false) ∧
    (∀ (s : CState) (items : List RawItem) (opts : Opts), ∀ m ∈ s.models,
      ∃ m' ∈ (addC s items opts).state.models, m'.cid = m.cid) := by
  constructor
  · intro opts
    exact ⟨rfl, rfl⟩
  · intro s items opts m hm
    have hrm : (setCfgOf s (addOptsOf opts)).removeE = false := rfl
    exact setC_models_frame_no_remove s items (addOptsOf opts) hrm m hm

theorem mergeExisting_fields (s : CState) (ex : SkModel) (a : Attrs) (sil : Bool) :
    (mergeExisting s ex a sil).1.comparator = s.comparator ∧
    (mergeExisting s ex a sil).1.validate = s.validate ∧
    (mergeExisting s ex a sil).1.nextCid = s.nextCid ∧
    (mergeExisting s ex a sil).1.length = s.length := by
  by_cases hc : (sil = false ∧ modelId ex.attrs ≠ modelId (mergeAttrs ex.attrs a)) <;>
    simp [mergeExisting, updateModelValue, hc]

theorem prepareModel_fields (s : CState) (item : RawItem) :
    (prepareModel s item).s.comparator = s.comparator ∧
    (prepareModel s item).s.validate = s.validate ∧
    (prepareModel s item).s.byId = s.byId ∧
    (prepareModel s item).s.length = s.length := by
  cases item with
  | modelItem m => exact ⟨rfl, rfl, rfl, rfl⟩
  | attrsItem a =>
    rcases hv : s.validate a with _ | e <;> simp [prepareModel, hv]

theorem loopStep_s_validate (cfg : SetCfg) (acc : LoopAcc) (item : RawItem) :
    (loopStep cfg acc item).s.validate = acc.s.validate := by
  cases hg : getC acc.s item.toGetArg with
  | some existing =>
    simp only [loopStep, hg]
    by_cases hd : (cfg.mergeE && !(sameInstance item existing)) = true
    · simp [hd, (mergeExisting_fields acc.s existing item.attrsOf cfg.silent).2.1]
    · simp only [Bool.not_eq_true] at hd
      simp [hd]
  | none =>
    by_cases ha : cfg.addE = true
    · simp only [loopStep, hg, ha, if_true]
      cases hm : (prepareModel acc.s item).model with
      | some m => simp [addReference, (prepareModel_fields acc.s item).2.1]
      | none => simp [(prepareModel_fields acc.s item).2.1]
    · simp only [Bool.not_eq_true] at ha
      simp [loopStep, hg, ha]

theorem setLoop_validate (cfg : SetCfg) (s : CState) (items : List RawItem) :
    (setLoop cfg s items).s.validate = s.validate := by
  suffices h : ∀ acc : LoopAcc, (items.foldl (loopStep cfg) acc).s.validate = acc.s.validate by
    exact h _
  induction items with
  | nil => intro acc; rfl
  | cons it rest ih =>
    intro acc
    rw [List.foldl_cons, ih, loopStep_s_validate]

theorem loopStep_ret_extend (cfg : SetCfg) (acc : LoopAcc) (item : RawItem) :
    ∃ r, (loopStep cfg acc item).ret = acc.ret ++ [r] := by
  cases hg : getC acc.s item.toGetArg with
  | some existing =>
    exact ⟨SetRet.modelRef existing.cid, by simp [loopStep, hg]⟩
  | none =>
    by_cases ha : cfg.addE = true
    · cases hm : (prepareModel acc.s item).model with
      | some m => exact ⟨SetRet.modelRef m.cid, by simp [loopStep, hg, ha, hm]⟩
      | none => exact ⟨SetRet.fls, by simp [loopStep, hg, ha, hm]⟩
    · simp only [Bool.not_eq_true] at ha
      exact ⟨SetRet.raw item, by simp [loopStep, hg, ha]⟩

theorem loopStep_invalids_extend (cfg : SetCfg) (acc : LoopAcc) (item : RawItem) :
    ∃ ext, (loopStep cfg acc item).invalids = acc.invalids ++ ext := by
  cases hg : getC acc.s item.toGetArg with
  | some existing => exact ⟨[], by simp [loopStep, hg]⟩
  | none =>
    by_cases ha : cfg.addE = true
    · cases hm : (prepareModel acc.s item).model with
      | some m => exact ⟨[], by simp [loopStep, hg, ha, hm]⟩
      | none =>
        exact ⟨(prepareModel acc.s item).trace, by simp [loopStep, hg, ha, hm]⟩
    · simp only [Bool.not_eq_true] at ha
      exact ⟨[], by simp [loopStep, hg, ha]⟩

theorem foldl_loopStep_ret_length (cfg : SetCfg) (items : List RawItem) :
    ∀ acc : LoopAcc,
    (items.foldl (loopStep cfg) acc).ret.length = acc.ret.length + items.length := by
  induction items with
  | nil => intro acc; simp
  | cons it rest ih =>
    intro acc
    rw [List.foldl_cons, ih]
    obtain ⟨r, hr⟩ := loopStep_ret_extend cfg acc it
    simp [hr]
    omega

theorem foldl_loopStep_ret_extend (cfg : SetCfg) (items : List RawItem) :
    ∀ acc : LoopAcc, ∃ ext, (items.foldl (loopStep cfg) acc).ret = acc.ret ++ ext := by
  induction items with
  | nil => intro acc; exact ⟨[], by simp⟩
  | cons it rest ih =>
    intro acc
    obtain ⟨r, hr⟩ := loopStep_ret_extend cfg acc it
    obtain ⟨ext, hext⟩ := ih (loopStep cfg acc it)
    exact ⟨r :: ext, by rw [List.foldl_cons, hext, hr]; simp⟩

theorem foldl_loopStep_invalids_extend (cfg : SetCfg) (items : List RawItem) :
    ∀ acc : LoopAcc, ∃ ext, (items.foldl (loopStep cfg) acc).invalids = acc.invalids ++ ext := by
  induction items with
  | nil => intro acc; exact ⟨[], by simp⟩
  | cons it rest ih =>
    intro acc
    obtain ⟨e1, h1⟩ := loopStep_invalids_extend cfg acc it
    obtain ⟨e2, h2⟩ := ih (loopStep cfg acc it)
    exact ⟨e1 ++ e2, by rw [List.foldl_cons, h2, h1]; simp⟩

theorem setC_ret (s : CState) (items : List RawItem) (opts : Opts) :
    (setC s items opts).ret = (setLoop (setCfgOf s opts) s items).ret := rfl

theorem setC_trace_mem_invalid (s : CState) (items : List RawItem) (opts : Opts)
    (ev : Traced) (hev : ev ∈ (setLoop (setCfgOf s opts) s items).invalids) :
    ev ∈ (setC s items opts).trace := by
  simp only [setC]
  exact List.mem_append_left _ (List.mem_append_left _ hev)

theorem loopStep_invalid_item (cfg : SetCfg) (acc : LoopAcc) (a : Attrs)
    (err : String)
    (hg : getC acc.s (RawItem.attrsItem a).toGetArg = none)
    (ha : cfg.addE = true) (hv : acc.s.validate a = some err) :
    loopStep cfg acc (RawItem.attrsItem a) =
      { acc with
        s := { acc.s with nextCid := acc.s.nextCid + 1 },
        ret := acc.ret ++ [SetRet.fls],
        invalids := acc.invalids ++
          [(SkEvent.invalid err, { acc.s with nextCid := acc.s.nextCid + 1 })] } := by
  have hm : (prepareModel acc.s (RawItem.attrsItem a)).model = none := by
    simp [prepareModel, hv]
  simp [loopStep, hg, ha, hm, prepareModel, hv]

/-- C8: a `set`/`add` input item whose model construction fails validation
(Modelled from the spec: `new this.model(attrs)` fills `validationError`)
contributes no model to the collection or to the returned result, raises
an `invalid` event carrying the failure detail, raises no error, and the
remaining items are still processed (lines 367-375, 678-689). The first
conjunct characterises the failing item's loop step completely: only the
cid counter, a `false` result slot, and the `invalid` emission change —
`models`, `_byId` and the staging lists are untouched. The second places
the `invalid` emission in the call's trace; the third shows every input
item still gets a result slot and the failing item's slot is JS `false`. -/
theorem claim_C8_validation_failure_dropped_nonfatal (s : CState)
    (pre post : List RawItem) (a : Attrs) (err : String) (opts : Opts)
    (hg : getC (setLoop (setCfgOf s opts) s pre).s (RawItem.attrsItem a).toGetArg = none)
    (ha : (setCfgOf s opts).addE = true)
    (hv : s.validate a = some err) :
    (loopStep (setCfgOf s opts) (setLoop (setCfgOf s opts) s pre) (RawItem.attrsItem a) =
      { setLoop (setCfgOf s opts) s pre with
        s := { (setLoop (setCfgOf s opts) s pre).s with
          nextCid := (setLoop (setCfgOf s opts) s pre).s.nextCid + 1 },
        ret := (setLoop (setCfgOf s opts) s pre).ret ++ [SetRet.fls],
        invalids := (setLoop (setCfgOf s opts) s pre).invalids ++
          [(SkEvent.invalid err, { (setLoop (setCfgOf s opts) s pre).s with
            nextCid := (setLoop (setCfgOf s opts) s pre).s.nextCid + 1 })] }) ∧
    (∃ st, (SkEvent.invalid err, st) ∈
      (setC s (pre ++ RawItem.attrsItem a :: post) opts).trace) ∧
    (setC s (pre ++ RawItem.attrsItem a :: post) opts).ret.length =
      pre.length + 1 + post.length ∧
    (setC s (pre ++ RawItem.attrsItem a :: post) opts).ret[pre.length]? =
      some SetRet.fls := by
  have hv' : (setLoop (setCfgOf s opts) s pre).s.validate a = some err := by
    rw [setLoop_validate]; exact hv
  have hstep := loopStep_invalid_item (setCfgOf s opts) (setLoop (setCfgOf s opts) s pre)
    a err hg ha hv'
  have hsplit : setLoop (setCfgOf s opts) s (pre ++ RawItem.attrsItem a :: post) =
      post.foldl (loopStep (setCfgOf s opts))
        (loopStep (setCfgOf s opts) (setLoop (setCfgOf s opts) s pre)
          (RawItem.attrsItem a)) := by
    unfold setLoop
    rw [List.foldl_append, List.foldl_cons]
  refine ⟨hstep, ?_, ?_, ?_⟩
  · obtain ⟨ext, hext⟩ := foldl_loopStep_invalids_extend (setCfgOf s opts) post
      (loopStep (setCfgOf s opts) (setLoop (setCfgOf s opts) s pre) (RawItem.attrsItem a))
    refine ⟨{ (setLoop (setCfgOf s opts) s pre).s with
      nextCid := (setLoop (setCfgOf s opts) s pre).s.nextCid + 1 }, ?_⟩
    apply setC_trace_mem_invalid
    rw [hsplit, hext, hstep]
    simp
  · rw [setC_ret, hsplit, foldl_loopStep_ret_length, hstep]
    have hlen : (setLoop (setCfgOf s opts) s pre).ret.length = pre.length := by
      unfold setLoop
      rw [foldl_loopStep_ret_length]
      simp
    simp [hlen]
  · rw [setC_ret, hsplit]
    obtain ⟨ext, hext⟩ := foldl_loopStep_ret_extend (setCfgOf s opts) post
      (loopStep (setCfgOf s opts) (setLoop (setCfgOf s opts) s pre) (RawItem.attrsItem a))
    rw [hext, hstep]
    have hlen : (setLoop (setCfgOf s opts) s pre).ret.length = pre.length := by
      unfold setLoop
      rw [foldl_loopStep_ret_length]
      simp
    simp only [List.append_assoc]
    rw [List.getElem?_append_right (by omega)]
    rw [hlen]
    simp

theorem claim_C8_witness :
    (setC (mkCollection none badValidate)
      [RawItem.attrsItem [("bad", 1)], RawItem.attrsItem [("id", 2)]] {}).ret[0]? =
      some SetRet.fls :=
  (claim_C8_validation_failure_dropped_nonfatal (mkCollection none badValidate)
    [] [RawItem.attrsItem [("id", 2)]] [("bad", 1)] "bad value" {}
    (by decide) rfl rfl).2.2.2

theorem claim_C10_witness :
    ∃ m' ∈ (addC wStateC2 [RawItem.attrsItem [("id", 9)]] {}).state.models,
      m'.cid = wModelC2.cid :=
  claim_C10_add_never_removes.2 wStateC2 [RawItem.attrsItem [("id", 9)]] {}
    wModelC2 (List.Mem.head _)

theorem claim_C2_witness :
    removedIndexPurged (SkEvent.remove wModelC2 0,
      { models := [], length := 0, byId := [], comparator := none,
        validate := noValidate, nextCid := 1 }) :=
  claim_C2_index_purged_before_remove_event.1 wStateC2 [GetArg.key (Sum.inr 7)] {} _
    (List.Mem.head _)

theorem map_fst_addEvents (l : List SkModel) (b f : Option Int) (st : CState)
    (i : Int) : (addEvents l b f st i).map Prod.fst = addEventNames l b f i := by
  induction l generalizing i with
  | nil => rfl
  | cons m rest ih => simp [addEvents, addEventNames, ih]

theorem loop_invalids_all (P : Traced → Prop)
    (hP : ∀ (e : String) (st : CState), P (SkEvent.invalid e, st))
    (cfg : SetCfg) (items : List RawItem) (acc : LoopAcc)
    (h : ∀ ev ∈ acc.invalids, P ev) :
    ∀ ev ∈ (items.foldl (loopStep cfg) acc).invalids, P ev := by
  induction items generalizing acc with
  | nil => exact h
  | cons item rest ih =>
    refine ih (loopStep cfg acc item) ?_
    intro ev hev
    cases hg : getC acc.s item.toGetArg with
    | some existing =>
      simp only [loopStep, hg] at hev
      exact h ev hev
    | none =>
      by_cases ha : cfg.addE = true
      · simp only [loopStep, hg, ha, if_true] at hev
        cases hm : (prepareModel acc.s item).model with
        | some m => simp only [hm] at hev; exact h ev hev
        | none =>
          simp only [hm, List.mem_append] at hev
          rcases hev with hev | hev
          · exact h ev hev
          · cases item with
            | modelItem m => simp [prepareModel] at hm
            | attrsItem a =>
              simp only [prepareModel] at hev
              rcases hv : acc.s.validate a with _ | e
              · simp [hv] at hev
              · simp only [hv, List.mem_singleton] at hev
                subst hev
                exact hP _ _
      · simp only [Bool.not_eq_true] at ha
        simp only [loopStep, hg, ha, Bool.false_eq_true, if_false] at hev
        exact h ev hev

theorem setLoop_invalids_shape (cfg : SetCfg) (s : CState) (items : List RawItem) :
    ∀ ev ∈ (setLoop cfg s items).invalids,
      ∃ e st, ev = (SkEvent.invalid e, st) := by
  unfold setLoop
  exact loop_invalids_all _ (fun e st => ⟨e, st, rfl⟩) cfg items _ (by simp)

theorem removeOne_trace_shape (silent : Bool) (acc : RemAcc) (arg : GetArg)
    (h : ∀ ev ∈ acc.trace, ∃ m i st, ev = (SkEvent.remove m i, st)) :
    ∀ ev ∈ (removeOne silent acc arg).trace,
      ∃ m i st, ev = (SkEvent.remove m i, st) := by
  cases hg : getC acc.s arg with
  | none => simpa [removeOne, hg] using h
  | some model =>
    intro ev hev
    simp only [removeOne, hg, List.mem_append] at hev
    rcases hev with hev | hev
    · exact h ev hev
    · by_cases hs : silent
      · simp [hs] at hev
      · rw [if_neg hs, List.mem_singleton] at hev
        exact ⟨_, _, _, hev⟩

theorem setRemovePhase_trace_shape (acc : LoopAcc) (toRemove : List SkModel)
    (silent : Bool) (idx0 : Option Int) :
    ∀ ev ∈ (setRemovePhase acc toRemove silent idx0).trace,
      ∃ m i st, ev = (SkEvent.remove m i, st) := by
  unfold setRemovePhase
  split
  · unfold removeModels
    generalize (toRemove.map (fun m => GetArg.modelArg m)) = args
    suffices hgen : ∀ (args : List GetArg) (acc0 : RemAcc),
        (∀ ev ∈ acc0.trace, ∃ m i st, ev = (SkEvent.remove m i, st)) →
        ∀ ev ∈ (args.foldl (removeOne silent) acc0).trace,
          ∃ m i st, ev = (SkEvent.remove m i, st) by
      exact hgen args _ (by simp)
    intro args
    induction args with
    | nil => intro acc0 h; exact h
    | cons a rest ih =>
      intro acc0 h
      exact ih (removeOne silent acc0 a) (removeOne_trace_shape silent acc0 a h)
  · simp

theorem map_fst_setEvents (toAddM toRemove toMergeM : List SkModel)
    (toAddC toMergeC : List Nat) (sf oc : Bool) (atR curIdx : Option Int)
    (st : CState) :
    (setEvents false toAddM toRemove toMergeM toAddC toMergeC sf oc atR curIdx
      st).map Prod.fst =
      addEventNames toAddM atR curIdx 0 ++
      (if sf || oc then [SkEvent.sort] else []) ++
      (if toAddC ≠ [] ∨ toRemove ≠ [] ∨ toMergeC ≠ [] then
        [SkEvent.update toAddM toRemove toMergeM] else []) := by
  simp only [setEvents, Bool.false_eq_true, if_false, List.map_append,
    map_fst_addEvents]
  congr 1
  congr 1
  · split <;> simp
  · split <;> simp

theorem setC_trace_decomp (s : CState) (items : List RawItem) (opts : Opts) :
    (setC s items opts).trace =
      (setLoop (setCfgOf s opts) s items).invalids ++
      (setRemovePhase (setLoop (setCfgOf s opts) s items)
        (setToRemove (setCfgOf s opts).removeE (setLoop (setCfgOf s opts) s items))
        (setCfgOf s opts).silent (setEffOpts opts).index).trace ++
      setEvents (setCfgOf s opts).silent (setC s items opts).toAddM
        (setC s items opts).toRemoveM (setC s items opts).toMergeM
        (setC s items opts).toAddC (setC s items opts).toMergeC
        (setC s items opts).sortFlag (setC s items opts).orderChanged
        (setC s items opts).atR (setC s items opts).idxAfter
        (setC s items opts).state := rfl

/-- C4 counterexample: a non-silent `set` of one fresh item on an empty
collection. The model's insertion index is 0, but its `add` event carries
no index at all (`options.index` is only assigned when an explicit `at` is
given, lines 408-409); and a `sort` event fires although nothing was
resorted and no retained model changed position (`orderChanged` is
satisfied by the length change alone, line 391). -/
theorem claim_C4_counterexample :
    (setC emptyColl [RawItem.attrsItem [("id", 1)]] {}).trace.map Prod.fst =
      [SkEvent.add wModelC4 none, SkEvent.sort,
        SkEvent.update [wModelC4] [] []] ∧
    SkEvent.add wModelC4 none ≠ SkEvent.add wModelC4 (some 0) := by
  constructor
  · decide
  · decide

/-- C4, amended: for every non-silent `set`, the trace is: first the
emissions of the reconciliation itself (`invalid` and `remove` events —
never `add`, `sort` or `update`), then one `add` event per newly added
model in order — carrying index `at + i` when an explicit `at` was given
and the stale `options.index` value (not the insertion index) otherwise —
then one `sort` event iff the collection was silently resorted or
`orderChanged` held, then one `update` event with the
`{added, removed, merged}` summary iff one of the three lists is
non-empty. -/
theorem claim_C4_amended_event_order (s : CState) (items : List RawItem)
    (opts : Opts) (hsil : (setCfgOf s opts).silent = false) :
    ∃ pre : List SkEvent,
      (∀ e ∈ pre, (∀ m i, e ≠ SkEvent.add m i) ∧ e ≠ SkEvent.sort ∧
        (∀ x y z, e ≠ SkEvent.update x y z)) ∧
      (setC s items opts).trace.map Prod.fst =
        pre ++
        addEventNames (setC s items opts).toAddM (setC s items opts).atR
          (setC s items opts).idxAfter 0 ++
        (if (setC s items opts).sortFlag || (setC s items opts).orderChanged
          then [SkEvent.sort] else []) ++
        (if (setC s items opts).toAddC ≠ [] ∨ (setC s items opts).toRemoveM ≠ [] ∨
            (setC s items opts).toMergeC ≠ []
          then [SkEvent.update (setC s items opts).toAddM
            (setC s items opts).toRemoveM (setC s items opts).toMergeM]
          else []) := by
  refine ⟨(setLoop (setCfgOf s opts) s items).invalids.map Prod.fst ++
    ((setRemovePhase (setLoop (setCfgOf s opts) s items)
      (setToRemove (setCfgOf s opts).removeE (setLoop (setCfgOf s opts) s items))
      false (setEffOpts opts).index).trace).map Prod.fst, ?_, ?_⟩
  · intro e he
    rcases List.mem_append.mp he with he | he
    · rcases List.mem_map.mp he with ⟨ev, hev, rfl⟩
      obtain ⟨er, st, rfl⟩ := setLoop_invalids_shape _ _ _ ev hev
      exact ⟨fun m i => by simp, by simp, fun x y z => by simp⟩
    · rcases List.mem_map.mp he with ⟨ev, hev, rfl⟩
      obtain ⟨m, i, st, rfl⟩ := setRemovePhase_trace_shape _ _ _ _ ev hev
      exact ⟨fun m' i' => by simp, by simp, fun x y z => by simp⟩
  · rw [setC_trace_decomp s items opts, hsil]
    rw [List.map_append, List.map_append, map_fst_setEvents]
    simp [List.append_assoc]

theorem setC_state_decomp (s : CState) (items : List RawItem) (opts : Opts) :
    (setC s items opts).state =
      setSortPhase
        (setStructural (setCfgOf s opts).sortable (setCfgOf s opts).addE
          (setCfgOf s opts).removeE (setLoop (setCfgOf s opts) s items)
          (setRemovePhase (setLoop (setCfgOf s opts) s items)
            (setToRemove (setCfgOf s opts).removeE (setLoop (setCfgOf s opts) s items))
            (setCfgOf s opts).silent (setEffOpts opts).index).s
          (setAtR s opts)).s3
        (setStructural (setCfgOf s opts).sortable (setCfgOf s opts).addE
          (setCfgOf s opts).removeE (setLoop (setCfgOf s opts) s items)
          (setRemovePhase (setLoop (setCfgOf s opts) s items)
            (setToRemove (setCfgOf s opts).removeE (setLoop (setCfgOf s opts) s items))
            (setCfgOf s opts).silent (setEffOpts opts).index).s
          (setAtR s opts)).sortFlag2 := rfl

theorem setC_toAddM_decomp (s : CState) (items : List RawItem) (opts : Opts) :
    (setC s items opts).toAddM =
      resolveCids (setC s items opts).state (setLoop (setCfgOf s opts) s items).toAdd := rfl

theorem setC_atR_eq (s : CState) (items : List RawItem) (opts : Opts) :
    (setC s items opts).atR = setAtR s opts := rfl

theorem setStructural_byId (so a r : Bool) (acc : LoopAcc) (s2 : CState)
    (atR : Option Int) : (setStructural so a r acc s2 atR).s3.byId = s2.byId := by
  unfold setStructural
  dsimp only
  split
  · rfl
  · split
    · rfl
    · rfl

theorem setSortPhase_false (s3 : CState) : setSortPhase s3 false = s3 := by
  simp [setSortPhase]

theorem setStructural_splice_branch (so a r : Bool) (acc : LoopAcc) (s2 : CState)
    (atv : Int) (hso : so = false) (har : (a && r) = false)
    (hta : acc.toAdd ≠ []) :
    setStructural so a r acc s2 (some atv) =
      { s3 := { s2 with
          models := spliceList s2.models (resolveCids s2 acc.toAdd) atv,
          length := ((spliceList s2.models (resolveCids s2 acc.toAdd) atv).length : Int) },
        sortFlag2 := acc.sortFlag, orderChanged := false } := by
  subst hso
  unfold setStructural
  rw [if_neg (by simp [har])]
  rw [if_pos hta]
  simp

theorem setStructural_skip (so a r : Bool) (acc : LoopAcc) (s2 : CState)
    (atR : Option Int) (hso : so = false) (har : (a && r) = false)
    (hta : acc.toAdd = []) :
    setStructural so a r acc s2 atR =
      { s3 := s2, sortFlag2 := acc.sortFlag, orderChanged := false } := by
  subst hso
  unfold setStructural
  rw [if_neg (by simp [har])]
  rw [if_neg (by simp [hta])]

theorem setSortPhase_byId (s3 : CState) (sf : Bool) :
    (setSortPhase s3 sf).byId = s3.byId := by
  unfold setSortPhase
  split <;> rfl

theorem resolveCids_congr_byId (s s' : CState) (h : s.byId = s'.byId)
    (cids : List Nat) : resolveCids s cids = resolveCids s' cids := by
  unfold resolveCids
  rw [h]

theorem spliceList_nil_insert (arr : List SkModel) (i : Int) :
    spliceList arr [] i = arr := by
  simp only [spliceList, List.append_nil, List.nil_append]
  exact List.take_append_drop _ _

theorem loopStep_sortFlag_of_not_sortable (cfg : SetCfg) (acc : LoopAcc)
    (item : RawItem) (h : cfg.sortable = false) :
    (loopStep cfg acc item).sortFlag = acc.sortFlag := by
  cases hg : getC acc.s item.toGetArg with
  | some existing =>
    simp only [loopStep, hg]
    by_cases hd : (cfg.mergeE && !(sameInstance item existing)) = true
    · simp [hd, h]
    · simp only [Bool.not_eq_true] at hd
      simp [hd]
  | none =>
    by_cases ha : cfg.addE = true
    · simp only [loopStep, hg, ha, if_true]
      cases hm : (prepareModel acc.s item).model with
      | some m => simp
      | none => simp
    · simp only [Bool.not_eq_true] at ha
      simp [loopStep, hg, ha]

theorem setLoop_sortFlag_of_not_sortable (cfg : SetCfg) (s : CState)
    (items : List RawItem) (h : cfg.sortable = false) :
    (setLoop cfg s items).sortFlag = false := by
  unfold setLoop
  suffices hgen : ∀ acc : LoopAcc,
      (items.foldl (loopStep cfg) acc).sortFlag = acc.sortFlag by
    exact hgen _
  induction items with
  | nil => intro acc; rfl
  | cons it rest ih =>
    intro acc
    rw [List.foldl_cons, ih, loopStep_sortFlag_of_not_sortable cfg acc it h]

theorem attrLookup_eq_none_of_not_mem (b : Attrs) (k : String)
    (h : k ∉ b.map Prod.fst) : attrLookup b k = none := by
  induction b with
  | nil => rfl
  | cons kv rest ih =>
    simp only [List.map_cons, List.mem_cons] at h
    push_neg at h
    simp only [attrLookup]
    rw [if_neg (fun hh => h.1 hh.symm)]
    exact ih h.2

theorem attrLookup_map_set (a : Attrs) (k : String) (v : Int) (k' : String) :
    attrLookup (a.map (fun p => if p.1 = k then (p.1, v) else p)) k' =
      if k' = k then (attrLookup a k).map (fun _ => v) else attrLookup a k' := by
  induction a with
  | nil => by_cases h : k' = k <;> simp [attrLookup, h]
  | cons kv rest ih =>
    obtain ⟨k0, v0⟩ := kv
    by_cases h1 : k0 = k
    · have hhead : (if (k0, v0).1 = k then ((k0, v0).1, v) else (k0, v0))
          = (k0, v) := by simp [h1]
      rw [List.map_cons, hhead]
      by_cases h2 : k' = k
      · rw [if_pos h2]
        simp only [attrLookup]
        rw [if_pos h1, if_pos (h1.trans h2.symm)]
        rfl
      · rw [if_neg h2]
        simp only [attrLookup]
        have hne : ¬k0 = k' := fun hh => h2 (hh ▸ h1)
        rw [if_neg hne, if_neg hne, ih, if_neg h2]
    · have hhead : (if (k0, v0).1 = k then ((k0, v0).1, v) else (k0, v0))
          = (k0, v0) := by simp [h1]
      rw [List.map_cons, hhead]
      simp only [attrLookup]
      rw [if_neg h1]
      by_cases h2 : k0 = k'
      · rw [if_pos h2, if_pos h2]
        by_cases h3 : k' = k
        · exact absurd (h2.trans h3) h1
        · rw [if_neg h3]
      · rw [if_neg h2, if_neg h2, ih]

theorem attrLookup_append_of_some (a b : Attrs) (k : String) (v : Int)
    (h : attrLookup a k = some v) : attrLookup (a ++ b) k = some v := by
  induction a with
  | nil => simp [attrLookup] at h
  | cons kv rest ih =>
    by_cases hk : kv.1 = k
    · simp_all [attrLookup]
    · simp only [attrLookup, hk, if_false] at h
      simp only [List.cons_append, attrLookup, hk, if_false]
      exact ih h

theorem attrLookup_append_of_none (a b : Attrs) (k : String)
    (h : attrLookup a k = none) : attrLookup (a ++ b) k = attrLookup b k := by
  induction a with
  | nil => rfl
  | cons kv rest ih =>
    by_cases hk : kv.1 = k
    · simp_all [attrLookup]
    · simp only [attrLookup, hk, if_false] at h
      simp only [List.cons_append, attrLookup, hk, if_false]
      exact ih h

theorem attrLookup_setAttr_self (a : Attrs) (k : String) (v : Int) :
    attrLookup (setAttr a k v) k = some v := by
  unfold setAttr
  split
  · next hsome =>
    rw [attrLookup_map_set, if_pos rfl]
    obtain ⟨w, hw⟩ := Option.isSome_iff_exists.mp hsome
    simp [hw]
  · next hnone =>
    rw [attrLookup_append_of_none _ _ _ (Option.not_isSome_iff_eq_none.mp hnone)]
    simp [attrLookup]

theorem attrLookup_setAttr_other (a : Attrs) (k k' : String) (v : Int)
    (h : k' ≠ k) : attrLookup (setAttr a k v) k' = attrLookup a k' := by
  unfold setAttr
  split
  · rw [attrLookup_map_set, if_neg h]
  · next hnone =>
    rcases hres : attrLookup a k' with _ | w
    · rw [attrLookup_append_of_none _ _ _ hres]
      simp [attrLookup, Ne.symm h]
    · exact attrLookup_append_of_some _ _ _ _ hres

theorem mergeAttrs_cons (a : Attrs) (kv : String × Int) (rest : Attrs) :
    mergeAttrs a (kv :: rest) = mergeAttrs (setAttr a kv.1 kv.2) rest := rfl

theorem mergeAttrs_lookup_of_none (a b : Attrs) (k : String)
    (h : attrLookup b k = none) :
    attrLookup (mergeAttrs a b) k = attrLookup a k := by
  induction b generalizing a with
  | nil => rfl
  | cons kv rest ih =>
    by_cases hk : kv.1 = k
    · simp [attrLookup, hk] at h
    · simp only [attrLookup, hk, if_false] at h
      rw [mergeAttrs_cons]
      exact (ih _ h).trans (attrLookup_setAttr_other _ _ _ _ (fun hh => hk hh.symm))

theorem mergeAttrs_lookup_of_some (a b : Attrs) (k : String) (v : Int)
    (hnd : (b.map Prod.fst).Nodup) (h : attrLookup b k = some v) :
    attrLookup (mergeAttrs a b) k = some v := by
  induction b generalizing a with
  | nil => simp [attrLookup] at h
  | cons kv rest ih =>
    rw [mergeAttrs_cons]
    simp only [List.map_cons, List.nodup_cons] at hnd
    by_cases hk : kv.1 = k
    · simp only [attrLookup] at h
      rw [if_pos hk] at h
      have hv := Option.some.inj h
      have hrest : attrLookup rest k = none :=
        attrLookup_eq_none_of_not_mem _ _ (fun hm => (hk ▸ hnd.1) hm)
      rw [mergeAttrs_lookup_of_none _ _ _ hrest, ← hk, attrLookup_setAttr_self, hv]
    · simp only [attrLookup] at h
      rw [if_neg hk] at h
      exact ih _ hnd.2 h

theorem map_set_id_of_not_mem (rest : Attrs) (k : String) (v : Int)
    (h : k ∉ rest.map Prod.fst) :
    rest.map (fun p => if p.1 = k then (p.1, v) else p) = rest := by
  induction rest with
  | nil => rfl
  | cons kv tail ih =>
    simp only [List.map_cons, List.mem_cons] at h
    push_neg at h
    simp only [List.map_cons]
    rw [if_neg (fun hh => h.1 hh.symm), ih h.2]

theorem map_set_id_of_lookup (a : Attrs) (k : String) (v : Int) (hnd : jsObj a)
    (h : attrLookup a k = some v) :
    a.map (fun p => if p.1 = k then (p.1, v) else p) = a := by
  induction a with
  | nil => rfl
  | cons kv rest ih =>
    simp only [jsObj, List.map_cons, List.nodup_cons] at hnd
    simp only [attrLookup] at h
    simp only [List.map_cons]
    by_cases hk : kv.1 = k
    · rw [if_pos hk] at h
      have hv := Option.some.inj h
      rw [if_pos hk, map_set_id_of_not_mem _ _ _ (fun hm => (hk ▸ hnd.1) hm), ← hv]
    · rw [if_neg hk] at h
      rw [if_neg hk, ih hnd.2 h]

theorem setAttr_self_eq (a : Attrs) (k : String) (v : Int) (hnd : jsObj a)
    (h : attrLookup a k = some v) : setAttr a k v = a := by
  unfold setAttr
  rw [if_pos (by simp [h]), map_set_id_of_lookup a k v hnd h]

theorem mergeAttrs_self_of_sub (a b : Attrs) (hnd : jsObj a)
    (hsub : ∀ kv ∈ b, attrLookup a kv.1 = some kv.2) : mergeAttrs a b = a := by
  induction b with
  | nil => rfl
  | cons kv rest ih =>
    rw [mergeAttrs_cons, setAttr_self_eq _ _ _ hnd (hsub kv (List.mem_cons_self _ _))]
    exact ih (fun p hp => hsub p (List.mem_cons_of_mem _ hp))

/-- C5 counterexample: a plain `set` (both `add` and `remove` in force)
with an explicit `at: 0` on the collection holding one model with id 7:
`set([{id: 7}, {id: 2}], {at: 0})`. The resolved index is 0 and the single
newly added model has cid 1, but the final `models` order is `[0, 1]` —
the wholesale-replace branch (lines 390-396) ran and put the kept list in
input order, not the splice of the additions at index 0, which would yield
`[1, 0]`. -/
theorem claim_C5_counterexample :
    (setC wStateC2 [RawItem.attrsItem [("id", 7)], RawItem.attrsItem [("id", 2)]]
      { atOpt := some 0 }).atR = some 0 ∧
    (setC wStateC2 [RawItem.attrsItem [("id", 7)], RawItem.attrsItem [("id", 2)]]
      { atOpt := some 0 }).toAddM.map (fun m => m.cid) = [1] ∧
    (setC wStateC2 [RawItem.attrsItem [("id", 7)], RawItem.attrsItem [("id", 2)]]
      { atOpt := some 0 }).state.models.map (fun m => m.cid) = [0, 1] ∧
    (spliceList wStateC2.models
      (setC wStateC2 [RawItem.attrsItem [("id", 7)], RawItem.attrsItem [("id", 2)]]
        { atOpt := some 0 }).toAddM 0).map (fun m => m.cid) = [1, 0] ∧
    ([0, 1] : List Nat) ≠ [1, 0] := by
  refine ⟨by decide, by decide, by decide, by decide, by decide⟩

/-- C5, amended: the explicit `at` is resolved exactly as lines 324-327
compute it — clamped down to `length`, a negative value then counted from
the end plus one (`resolveAt`); the `splice` helper further clamps to
`[0, array.length]`. The newly added models are spliced into `models` at
the resolved index only when the wholesale-replace branch does not apply,
i.e. when `add` and `remove` are not both in force (as in `add`, `push`,
`unshift`); with both in force and a non-empty kept list, `models` is
replaced by the kept list and `at` only affects the reported add-event
indices. -/
theorem claim_C5_amended_at_resolution_and_splice (s : CState)
    (items : List RawItem) (opts : Opts) (a0 : Int)
    (hat : (setEffOpts opts).atOpt = some a0)
    (hrep : ((setCfgOf s opts).addE && (setCfgOf s opts).removeE) = false) :
    (setC s items opts).atR = some (resolveAt a0 s.length) ∧
    (setC s items opts).state.models =
      spliceList
        (setRemovePhase (setLoop (setCfgOf s opts) s items)
          (setToRemove (setCfgOf s opts).removeE (setLoop (setCfgOf s opts) s items))
          (setCfgOf s opts).silent (setEffOpts opts).index).s.models
        (setC s items opts).toAddM (resolveAt a0 s.length) := by
  have hsortable : (setCfgOf s opts).sortable = false := by
    simp [setCfgOf, hat]
  have hatR : setAtR s opts = some (resolveAt a0 s.length) := by
    simp [setAtR, hat]
  constructor
  · rw [setC_atR_eq, hatR]
  · have hsf : (setLoop (setCfgOf s opts) s items).sortFlag = false :=
      setLoop_sortFlag_of_not_sortable _ _ _ hsortable
    have htoAddM : (setC s items opts).toAddM =
        resolveCids
          (setRemovePhase (setLoop (setCfgOf s opts) s items)
            (setToRemove (setCfgOf s opts).removeE (setLoop (setCfgOf s opts) s items))
            (setCfgOf s opts).silent (setEffOpts opts).index).s
          (setLoop (setCfgOf s opts) s items).toAdd := by
      rw [setC_toAddM_decomp, setC_state_decomp]
      exact resolveCids_congr_byId _ _
        (by rw [setSortPhase_byId, setStructural_byId]) _
    rw [setC_state_decomp, htoAddM, hatR]
    by_cases hta : (setLoop (setCfgOf s opts) s items).toAdd = []
    · rw [setStructural_skip _ _ _ _ _ _ hsortable hrep hta]
      rw [hta]
      simp only [hsf, setSortPhase_false]
      simp [resolveCids, spliceList_nil_insert]
    · rw [setStructural_splice_branch _ _ _ _ _ _ hsortable hrep hta]
      simp only [hsf, setSortPhase_false]

theorem claim_C5_witness :
    (setC wStateC2 [RawItem.attrsItem [("id", 9)]]
      { remove := some false, atOpt := some (-5) }).atR =
      some (resolveAt (-5) wStateC2.length) :=
  (claim_C5_amended_at_resolution_and_splice wStateC2
    [RawItem.attrsItem [("id", 9)]] { remove := some false, atOpt := some (-5) }
    (-5) rfl rfl).1

theorem claim_C4_witness :
    (setCfgOf emptyColl ({} : Opts)).silent = false ∧
    ∃ pre : List SkEvent,
      (∀ e ∈ pre, (∀ m i, e ≠ SkEvent.add m i) ∧ e ≠ SkEvent.sort ∧
        (∀ x y z, e ≠ SkEvent.update x y z)) ∧
      (setC emptyColl [RawItem.attrsItem [("id", 1)]] {}).trace.map Prod.fst =
        pre ++
        addEventNames (setC emptyColl [RawItem.attrsItem [("id", 1)]] {}).toAddM
          (setC emptyColl [RawItem.attrsItem [("id", 1)]] {}).atR
          (setC emptyColl [RawItem.attrsItem [("id", 1)]] {}).idxAfter 0 ++
        (if (setC emptyColl [RawItem.attrsItem [("id", 1)]] {}).sortFlag ||
            (setC emptyColl [RawItem.attrsItem [("id", 1)]] {}).orderChanged
          then [SkEvent.sort] else []) ++
        (if (setC emptyColl [RawItem.attrsItem [("id", 1)]] {}).toAddC ≠ [] ∨
            (setC emptyColl [RawItem.attrsItem [("id", 1)]] {}).toRemoveM ≠ [] ∨
            (setC emptyColl [RawItem.attrsItem [("id", 1)]] {}).toMergeC ≠ []
          then [SkEvent.update (setC emptyColl [RawItem.attrsItem [("id", 1)]] {}).toAddM
            (setC emptyColl [RawItem.attrsItem [("id", 1)]] {}).toRemoveM
            (setC emptyColl [RawItem.attrsItem [("id", 1)]] {}).toMergeM]
          else []) :=
  ⟨rfl, claim_C4_amended_event_order emptyColl [RawItem.attrsItem [("id", 1)]] {} rfl⟩

theorem byIdDelete_eq_filter (l : List (ByIdKey × SkModel)) (k : ByIdKey) :
    byIdDelete l k = l.filter (fun p => decide (p.1 ≠ k)) := by
  induction l with
  | nil => rfl
  | cons p rest ih =>
    obtain ⟨pk, pm⟩ := p
    by_cases h : pk = k <;> simp [byIdDelete, List.filter_cons, h, ih]

theorem mem_byIdDelete (l : List (ByIdKey × SkModel)) (k : ByIdKey)
    (p : ByIdKey × SkModel) :
    p ∈ byIdDelete l k ↔ p ∈ l ∧ p.1 ≠ k := by
  rw [byIdDelete_eq_filter, List.mem_filter]
  simp

theorem byIdDelete_pairwise (l : List (ByIdKey × SkModel)) (k : ByIdKey)
    (h : l.Pairwise (fun a b => a.1 ≠ b.1)) :
    (byIdDelete l k).Pairwise (fun a b => a.1 ≠ b.1) := by
  rw [byIdDelete_eq_filter]
  exact h.sublist (List.filter_sublist _)

theorem mem_byIdInsert (l : List (ByIdKey × SkModel)) (k : ByIdKey) (m : SkModel)
    (p : ByIdKey × SkModel) :
    p ∈ byIdInsert l k m ↔ p = (k, m) ∨ (p ∈ l ∧ p.1 ≠ k) := by
  simp [byIdInsert, mem_byIdDelete]

theorem byIdInsert_pairwise (l : List (ByIdKey × SkModel)) (k : ByIdKey)
    (m : SkModel) (h : l.Pairwise (fun a b => a.1 ≠ b.1)) :
    (byIdInsert l k m).Pairwise (fun a b => a.1 ≠ b.1) := by
  unfold byIdInsert
  refine List.Pairwise.cons ?_ (byIdDelete_pairwise l k h)
  intro q hq
  have hm := (mem_byIdDelete l k q).mp hq
  exact fun hk => hm.2 hk.symm

theorem byIdLookup_mem (l : List (ByIdKey × SkModel)) (k : ByIdKey) (m : SkModel)
    (h : byIdLookup l k = some m) : (k, m) ∈ l := by
  induction l with
  | nil => simp [byIdLookup] at h
  | cons p rest ih =>
    obtain ⟨pk, pm⟩ := p
    by_cases hk : pk = k
    · subst hk
      rw [byIdLookup_cons, if_pos rfl] at h
      cases Option.some.inj h
      exact List.mem_cons_self _ _
    · rw [byIdLookup_cons, if_neg hk] at h
      exact List.mem_cons_of_mem _ (ih h)

theorem byIdLookup_of_mem_pairwise (l : List (ByIdKey × SkModel)) (k : ByIdKey)
    (m : SkModel) (hp : l.Pairwise (fun a b => a.1 ≠ b.1)) (hm : (k, m) ∈ l) :
    byIdLookup l k = some m := by
  induction l with
  | nil => simp at hm
  | cons p rest ih =>
    obtain ⟨pk, pm⟩ := p
    rw [List.pairwise_cons] at hp
    rcases List.mem_cons.mp hm with he | hm'
    · injection he with e1 e2
      subst e1
      subst e2
      simp [byIdLookup]
    · have hk : pk ≠ k := hp.1 (k, m) hm'
      rw [byIdLookup_cons, if_neg hk]
      exact ih hp.2 hm'

theorem byIdLookup_map_update (B : List (ByIdKey × SkModel)) (c : Nat)
    (m' : SkModel) (k : ByIdKey) :
    byIdLookup (B.map (fun p => if p.2.cid = c then (p.1, m') else p)) k =
      (byIdLookup B k).map (fun m => if m.cid = c then m' else m) := by
  induction B with
  | nil => rfl
  | cons p rest ih =>
    obtain ⟨pk, pm⟩ := p
    by_cases hc : pm.cid = c
    · have hhead : (if (pk, pm).2.cid = c then ((pk, pm).1, m') else (pk, pm))
          = (pk, m') := by simp [hc]
      rw [List.map_cons, hhead]
      simp only [byIdLookup_cons]
      by_cases hk : pk = k
      · rw [if_pos hk, if_pos hk]
        simp [hc]
      · rw [if_neg hk, if_neg hk, ih]
    · have hhead : (if (pk, pm).2.cid = c then ((pk, pm).1, m') else (pk, pm))
          = (pk, pm) := by simp [hc]
      rw [List.map_cons, hhead]
      simp only [byIdLookup_cons]
      by_cases hk : pk = k
      · rw [if_pos hk, if_pos hk]
        simp [hc]
      · rw [if_neg hk, if_neg hk, ih]

theorem upd_pair_fst (c : Nat) (m' : SkModel) (p : ByIdKey × SkModel) :
    (if p.2.cid = c then (p.1, m') else p).1 = p.1 := by
  by_cases h : p.2.cid = c <;> simp [h]

theorem pairwise_keys_map_update (B : List (ByIdKey × SkModel)) (c : Nat)
    (m' : SkModel) (h : B.Pairwise (fun a b => a.1 ≠ b.1)) :
    (B.map (fun p => if p.2.cid = c then (p.1, m') else p)).Pairwise
      (fun a b => a.1 ≠ b.1) := by
  rw [List.pairwise_map]
  refine h.imp ?_
  intro a b hab
  simpa [upd_pair_fst] using hab

theorem upd_model_cid (m' : SkModel) (x : SkModel) :
    (if x.cid = m'.cid then m' else x).cid = x.cid := by
  by_cases h : x.cid = m'.cid <;> simp [h]

theorem eq_of_mem_pairwise_cid (l : List SkModel)
    (h : l.Pairwise (fun a b => a.cid ≠ b.cid)) (x y : SkModel)
    (hx : x ∈ l) (hy : y ∈ l) (hc : x.cid = y.cid) : x = y := by
  induction l with
  | nil => simp at hx
  | cons a rest ih =>
    rw [List.pairwise_cons] at h
    rcases List.mem_cons.mp hx with rfl | hx'
    · rcases List.mem_cons.mp hy with rfl | hy'
      · rfl
      · exact absurd hc (h.1 y hy')
    · rcases List.mem_cons.mp hy with rfl | hy'
      · exact absurd hc.symm (h.1 x hx')
      · exact ih h.2 hx' hy'

theorem pairwise_cid_of_nodup_map (l : List SkModel)
    (h : (l.map (fun m => m.cid)).Nodup) :
    l.Pairwise (fun a b => a.cid ≠ b.cid) :=
  List.pairwise_map.mp h

theorem nodup_of_pairwise_cid (l : List SkModel)
    (h : l.Pairwise (fun a b => a.cid ≠ b.cid)) : l.Nodup :=
  h.imp (fun hab he => hab (congrArg SkModel.cid he))

theorem orElse_eq_some_cases (o : Option SkModel) (f : Unit → Option SkModel)
    (m : SkModel) (h : o.orElse f = some m) :
    o = some m ∨ (o = none ∧ f () = some m) := by
  cases o with
  | none => exact Or.inr ⟨rfl, h⟩
  | some x => exact Or.inl h

theorem orElse_eq_none_left (o : Option SkModel) (f : Unit → Option SkModel)
    (h : o.orElse f = none) : o = none := by
  cases o with
  | none => rfl
  | some x => exact absurd h (by simp [Option.orElse])

theorem getC_attrs_resolve (s : CState) (a : Attrs) (ex : SkModel)
    (hnc : attrLookup a "cid" = none) (h : getC s (.attrsArg a) = some ex) :
    ∃ i, modelId a = some i ∧ byIdLookup s.byId (.inr i) = some ex := by
  unfold getC at h
  rcases orElse_eq_some_cases _ _ _ h with h1 | ⟨h1, h2⟩
  · rcases Option.bind_eq_some.mp h1 with ⟨i, hi, hl⟩
    exact ⟨i, hi, hl⟩
  · rw [hnc] at h2
    simp at h2

theorem getC_attrs_none_id (s : CState) (a : Attrs)
    (h : getC s (.attrsArg a) = none) :
    ∀ i, modelId a = some i → byIdLookup s.byId (.inr i) = none := by
  intro i hi
  have h' : ((modelId a).bind (fun j => byIdLookup s.byId (.inr j))).orElse
      (fun _ => (attrLookup a "cid").bind
        (fun c => byIdLookup s.byId (.inr c))) = none := h
  rw [hi] at h'
  have h1 := orElse_eq_none_left _ _ h'
  rw [Option.some_bind] at h1
  exact h1

theorem getC_modelArg_self (s : CState) (m : SkModel)
    (h4 : byIdLookup s.byId (.inl m.cid) = some m)
    (h5 : ∀ i ∈ (modelId m.attrs).toList, byIdLookup s.byId (.inr i) = some m) :
    getC s (.modelArg m) = some m := by
  show ((modelId m.attrs).bind (fun j => byIdLookup s.byId (.inr j))).orElse
    (fun _ => byIdLookup s.byId (.inl m.cid)) = some m
  rcases hid : modelId m.attrs with _ | i
  · rw [Option.none_bind]
    simpa [Option.orElse] using h4
  · have hl := h5 i (by simp [hid])
    rw [Option.some_bind, hl]
    rfl

theorem getC_some_mem (s : CState) (arg : GetArg) (m : SkModel)
    (M : List SkModel)
    (h7 : ∀ p ∈ s.byId, p.2 ∈ M ∧ keyMatches p.1 p.2)
    (h : getC s arg = some m) : m ∈ M := by
  have hk : ∃ k, byIdLookup s.byId k = some m := by
    unfold getC at h
    cases arg with
    | key k => exact ⟨k, h⟩
    | attrsArg a =>
      rcases orElse_eq_some_cases _ _ _ h with h1 | ⟨h1, h2⟩
      · rcases Option.bind_eq_some.mp h1 with ⟨i, _, hl⟩
        exact ⟨.inr i, hl⟩
      · rcases Option.bind_eq_some.mp h2 with ⟨c, _, hl⟩
        exact ⟨.inr c, hl⟩
    | modelArg mm =>
      rcases orElse_eq_some_cases _ _ _ h with h1 | ⟨h1, h2⟩
      · rcases Option.bind_eq_some.mp h1 with ⟨i, _, hl⟩
        exact ⟨.inr i, hl⟩
      · exact ⟨.inl mm.cid, h2⟩
  obtain ⟨k, hkl⟩ := hk
  exact (h7 (k, m) (byIdLookup_mem _ _ _ hkl)).1

theorem lookup_inl_cid (s : CState) (M : List SkModel)
    (h7 : ∀ p ∈ s.byId, p.2 ∈ M ∧ keyMatches p.1 p.2) (c : Nat) (m : SkModel)
    (h : byIdLookup s.byId (.inl c) = some m) : m.cid = c :=
  (h7 (Sum.inl c, m) (byIdLookup_mem _ _ _ h)).2

theorem WFX_nextCid_succ (s : CState) (pending : List SkModel)
    (h : WFX s pending) : WFX { s with nextCid := s.nextCid + 1 } pending := by
  obtain ⟨h1, h2, h3, h4, h5, h6, h7⟩ := h
  exact ⟨h1, h2, fun m hm => Nat.lt_succ_of_lt (h3 m hm), h4, h5, h6, h7⟩

theorem updateModel_wfx (s : CState) (pending : List SkModel) (ex ex' : SkModel)
    (hwf : WFX s pending) (hex : ex ∈ s.models ++ pending)
    (hcid : ex'.cid = ex.cid) (hid : modelId ex'.attrs = modelId ex.attrs) :
    WFX (updateModelValue s ex')
      (pending.map (fun x => if x.cid = ex'.cid then ex' else x)) := by
  obtain ⟨h1, h2, h3, h4, h5, h6, h7⟩ := hwf
  have hL : (updateModelValue s ex').models ++
      pending.map (fun x => if x.cid = ex'.cid then ex' else x) =
      (s.models ++ pending).map (fun x => if x.cid = ex'.cid then ex' else x) := by
    simp [updateModelValue, List.map_append]
  have huniq : ∀ x ∈ s.models ++ pending, x.cid = ex'.cid → x = ex := by
    intro x hx hc
    exact eq_of_mem_pairwise_cid _ h2 x ex hx hex (hc.trans hcid)
  have hucid : ∀ x : SkModel, (if x.cid = ex'.cid then ex' else x).cid = x.cid := by
    intro x
    by_cases h : x.cid = ex'.cid <;> simp [h]
  refine ⟨?_, ?_, ?_, ?_, ?_, ?_, ?_⟩
  · simpa [updateModelValue] using h1
  · rw [hL, List.pairwise_map]
    refine h2.imp ?_
    intro a b hab
    simpa [hucid] using hab
  · rw [hL]
    intro m hm
    rcases List.mem_map.mp hm with ⟨y, hy, rfl⟩
    simpa [hucid, updateModelValue] using h3 y hy
  · rw [hL]
    intro m hm
    rcases List.mem_map.mp hm with ⟨y, hy, rfl⟩
    show byIdLookup (updateModelValue s ex').byId _ = _
    simp only [updateModelValue]
    rw [byIdLookup_map_update, hucid y, h4 y hy]
    rfl
  · rw [hL]
    intro m hm i hi
    rcases List.mem_map.mp hm with ⟨y, hy, rfl⟩
    show byIdLookup (updateModelValue s ex').byId _ = _
    simp only [updateModelValue]
    rw [byIdLookup_map_update]
    by_cases hc : y.cid = ex'.cid
    · have hyex : y = ex := huniq y hy hc
      subst hyex
      rw [if_pos hc] at hi ⊢
      rw [hid] at hi
      rw [h5 y hy i hi]
      simp [hc]
    · rw [if_neg hc] at hi ⊢
      rw [h5 y hy i hi]
      simp [hc]
  · exact pairwise_keys_map_update _ _ _ h6
  · intro p hp
    simp only [updateModelValue] at hp
    rcases List.mem_map.mp hp with ⟨q, hq, rfl⟩
    obtain ⟨hmem, hkey⟩ := h7 q hq
    rw [hL]
    by_cases hc : q.2.cid = ex'.cid
    · have hqex : q.2 = ex := huniq q.2 hmem hc
      rw [if_pos hc]
      constructor
      · refine List.mem_map.mpr ⟨ex, hex, ?_⟩
        rw [if_pos (hcid.symm ▸ rfl)]
      · show keyMatches q.1 ex'
        rw [hqex] at hkey
        cases hk : q.1 with
        | inl cc =>
          rw [hk] at hkey
          show ex'.cid = cc
          rw [hcid]
          exact hkey
        | inr ii =>
          rw [hk] at hkey
          show modelId ex'.attrs = some ii
          rw [hid]
          exact hkey
    · rw [if_neg hc]
      refine ⟨List.mem_map.mpr ⟨q.2, hmem, ?_⟩, hkey⟩
      rw [if_neg hc]

theorem addReference_wfx (s : CState) (pending : List SkModel) (m : SkModel)
    (hwf : WFX s pending) (hcid : m.cid = s.nextCid)
    (hfresh : ∀ i, modelId m.attrs = some i →
      byIdLookup s.byId (.inr i) = none) :
    WFX (addReference { s with nextCid := s.nextCid + 1 } m) (pending ++ [m]) := by
  obtain ⟨h1, h2, h3, h4, h5, h6, h7⟩ := hwf
  have hnew : ∀ x ∈ s.models ++ pending, x.cid ≠ m.cid := by
    intro x hx
    rw [hcid]
    exact Nat.ne_of_lt (h3 x hx)
  have hLeq : (addReference { s with nextCid := s.nextCid + 1 } m).models ++
      (pending ++ [m]) = (s.models ++ pending) ++ [m] := by
    simp [addReference, List.append_assoc]
  have hBmem : ∀ q : ByIdKey × SkModel,
      q ∈ (addReference { s with nextCid := s.nextCid + 1 } m).byId →
      (q ∈ s.byId ∨ (q.2 = m ∧ keyMatches q.1 m)) := by
    intro q hq
    simp only [addReference] at hq
    rcases hmid : modelId m.attrs with _ | i
    · rw [hmid] at hq
      rcases (mem_byIdInsert _ _ _ _).mp hq with rfl | ⟨hq1, _⟩
      · exact Or.inr ⟨rfl, rfl⟩
      · exact Or.inl hq1
    · rw [hmid] at hq
      rcases (mem_byIdInsert _ _ _ _).mp hq with rfl | ⟨hq1, _⟩
      · exact Or.inr ⟨rfl, hmid⟩
      · rcases (mem_byIdInsert _ _ _ _).mp hq1 with rfl | ⟨hq2, _⟩
        · exact Or.inr ⟨rfl, rfl⟩
        · exact Or.inl hq2
  have hlook : ∀ k : ByIdKey, (k ≠ .inl m.cid) →
      (∀ i, modelId m.attrs = some i → k ≠ .inr i) →
      byIdLookup (addReference { s with nextCid := s.nextCid + 1 } m).byId k =
        byIdLookup s.byId k := by
    intro k hk1 hk2
    simp only [addReference]
    rcases hmid : modelId m.attrs with _ | i
    · rw [byIdLookup_insert, if_neg (fun hh => hk1 hh.symm)]
    · rw [byIdLookup_insert, if_neg (fun hh => (hk2 i hmid) hh.symm),
        byIdLookup_insert, if_neg (fun hh => hk1 hh.symm)]
  refine ⟨?_, ?_, ?_, ?_, ?_, ?_, ?_⟩
  · simpa [addReference] using h1
  · rw [hLeq]
    rw [List.pairwise_append]
    refine ⟨h2, List.pairwise_singleton _ _, ?_⟩
    intro a ha b hb
    rw [List.mem_singleton.mp hb]
    exact hnew a ha
  · rw [hLeq]
    intro x hx
    rcases List.mem_append.mp hx with hx1 | hx2
    · show x.cid < s.nextCid + 1
      exact Nat.lt_succ_of_lt (h3 x hx1)
    · rw [List.mem_singleton.mp hx2, hcid]
      exact Nat.lt_succ_self _
  · rw [hLeq]
    intro x hx
    rcases List.mem_append.mp hx with hx1 | hx2
    · rw [hlook _ (fun hh => hnew x hx1 (Sum.inl.inj hh)) (fun i _ hh => by
        exact absurd hh (by simp))]
      exact h4 x hx1
    · rw [List.mem_singleton.mp hx2]
      simp only [addReference]
      rcases hmid : modelId m.attrs with _ | i
      · rw [byIdLookup_insert, if_pos rfl]
      · rw [byIdLookup_insert, if_neg (by simp), byIdLookup_insert, if_pos rfl]
  · rw [hLeq]
    intro x hx j hj
    rcases List.mem_append.mp hx with hx1 | hx2
    · have hxl := h5 x hx1 j hj
      rw [hlook _ (by simp) ?hneq]
      · exact hxl
      case hneq =>
        intro i hmi hh
        have hni := hfresh i hmi
        rw [← Sum.inr.inj hh] at hni
        rw [hxl] at hni
        exact Option.noConfusion hni
    · rw [List.mem_singleton.mp hx2] at hj ⊢
      rcases hmid : modelId m.attrs with _ | i
      · rw [hmid] at hj
        simp at hj
      · rw [hmid] at hj
        rw [Option.toList_some, List.mem_singleton] at hj
        subst hj
        simp only [addReference, hmid]
        rw [byIdLookup_insert, if_pos rfl]
  · simp only [addReference]
    rcases modelId m.attrs with _ | i
    · exact byIdInsert_pairwise _ _ _ h6
    · exact byIdInsert_pairwise _ _ _ (byIdInsert_pairwise _ _ _ h6)
  · intro p hp
    rw [hLeq]
    rcases hBmem p hp with hp1 | ⟨hp2, hpk⟩
    · obtain ⟨hmem, hkey⟩ := h7 p hp1
      exact ⟨List.mem_append.mpr (Or.inl hmem), hkey⟩
    · rw [hp2]
      exact ⟨List.mem_append.mpr (Or.inr (List.mem_singleton.mpr rfl)), hp2 ▸ hpk⟩

theorem findIdx_cid_aux (c : Nat) (l : List SkModel) :
    ∀ i : Nat, l.Pairwise (fun a b => a.cid ≠ b.cid) → (∃ m ∈ l, m.cid = c) →
    ∃ n : Nat, n < l.length ∧
      l.findIdx? (fun x => decide (x.cid = c)) i = some (i + n) ∧
      l.take n ++ l.drop (n + 1) = l.filter (fun x => decide (x.cid ≠ c)) := by
  induction l with
  | nil => intro i _ hmem; simp at hmem
  | cons a rest ih =>
    intro i hpair hmem
    rw [List.pairwise_cons] at hpair
    by_cases hac : a.cid = c
    · refine ⟨0, by simp, ?_, ?_⟩
      · rw [List.findIdx?_cons, if_pos (by simp [hac])]
        simp
      · have hrest : rest.filter (fun x => decide (x.cid ≠ c)) = rest :=
          List.filter_eq_self.mpr (fun x hx => by
            simp only [decide_eq_true_eq]
            exact fun hh => (hpair.1 x hx) (hac.trans hh.symm))
        show (a :: rest).take 0 ++ (a :: rest).drop (0 + 1) = _
        simp only [List.take_zero, List.nil_append, List.drop_succ_cons,
          List.drop_zero]
        rw [List.filter_cons, if_neg (by simp [hac])]
        exact hrest.symm
    · have hmem' : ∃ m ∈ rest, m.cid = c := by
        rcases hmem with ⟨m, hm, hc⟩
        rcases List.mem_cons.mp hm with rfl | hm'
        · exact absurd hc hac
        · exact ⟨m, hm', hc⟩
      obtain ⟨n, hn, hfind, hfilter⟩ := ih (i + 1) hpair.2 hmem'
      refine ⟨n + 1, by simpa using Nat.succ_lt_succ hn, ?_, ?_⟩
      · rw [List.findIdx?_cons, if_neg (by simp [hac]), hfind]
        congr 1
        omega
      · simp only [List.take_succ_cons, List.drop_succ_cons, List.cons_append]
        rw [hfilter]
        simp [List.filter_cons, hac]

theorem indexOfModel_spec (l : List SkModel) (m : SkModel)
    (hpair : l.Pairwise (fun a b => a.cid ≠ b.cid)) (hm : m ∈ l) :
    ∃ n : Nat, n < l.length ∧ indexOfModel l m = (n : Int) ∧
      l.take n ++ l.drop (n + 1) = l.filter (fun x => decide (x.cid ≠ m.cid)) := by
  obtain ⟨n, hn, hfind, hfil⟩ := findIdx_cid_aux m.cid l 0 hpair ⟨m, hm, rfl⟩
  refine ⟨n, hn, ?_, hfil⟩
  unfold indexOfModel
  rw [hfind]
  simp

theorem jsSpliceRemove_nat (l : List SkModel) (n : Nat) (h : n < l.length) :
    jsSpliceRemove l (n : Int) = l.take n ++ l.drop (n + 1) := by
  unfold jsSpliceRemove
  dsimp only
  rw [if_neg (by omega)]
  have hmin : min ((n : Int)).toNat l.length = n := by
    rw [Int.toNat_natCast]
    exact Nat.min_eq_left (Nat.le_of_lt h)
  rw [hmin]

theorem byIdDelete_idem (l : List (ByIdKey × SkModel)) (k : ByIdKey) :
    byIdDelete (byIdDelete l k) k = byIdDelete l k := by
  simp only [byIdDelete_eq_filter, List.filter_filter]
  exact List.filter_congr (fun p _ => by by_cases h : p.1 = k <;> simp [h])

theorem byIdDelete_comm (l : List (ByIdKey × SkModel)) (k1 k2 : ByIdKey) :
    byIdDelete (byIdDelete l k1) k2 = byIdDelete (byIdDelete l k2) k1 := by
  simp only [byIdDelete_eq_filter, List.filter_filter]
  exact List.filter_congr (fun p _ => by
    by_cases h1 : p.1 = k1 <;> by_cases h2 : p.1 = k2 <;> simp [h1, h2])

theorem removeReference_purged (s : CState) (m : SkModel)
    (hp1 : byIdDelete s.byId (.inl m.cid) = s.byId)
    (hp2 : ∀ i, modelId m.attrs = some i →
      byIdDelete s.byId (.inr i) = s.byId) :
    removeReference s m = s := by
  unfold removeReference
  rcases hmid : modelId m.attrs with _ | i
  · simp only [hmid, hp1]
  · simp only [hmid, hp1, hp2 i hmid]

theorem removeOne_some_shape (silent : Bool) (acc : RemAcc) (arg : GetArg)
    (mr : SkModel) (hres : getC acc.s arg = some mr) :
    (removeOne silent acc arg).s =
      removeReference
        { acc.s with
            models := jsSpliceRemove acc.s.models (indexOfModel acc.s.models mr),
            length := acc.s.length - 1,
            byId := (match modelId mr.attrs with
              | some i => byIdDelete (byIdDelete acc.s.byId (.inl mr.cid)) (.inr i)
              | none => byIdDelete acc.s.byId (.inl mr.cid)) } mr := by
  simp only [removeOne, hres]

theorem removeOne_wfx (silent : Bool) (acc : RemAcc) (arg : GetArg)
    (pending : List SkModel) (mr : SkModel) (hwf : WFX acc.s pending)
    (hres : getC acc.s arg = some mr) (hmem : mr ∈ acc.s.models) :
    (removeOne silent acc arg).s.models =
      acc.s.models.filter (fun x => decide (x.cid ≠ mr.cid)) ∧
    WFX (removeOne silent acc arg).s pending ∧
    (removeOne silent acc arg).s.validate = acc.s.validate ∧
    (removeOne silent acc arg).s.comparator = acc.s.comparator ∧
    (removeOne silent acc arg).s.nextCid = acc.s.nextCid := by
  obtain ⟨h1, h2, h3, h4, h5, h6, h7⟩ := hwf
  have hpairM : acc.s.models.Pairwise (fun a b => a.cid ≠ b.cid) :=
    (List.pairwise_append.mp h2).1
  obtain ⟨n, hn, hidx, hfil⟩ := indexOfModel_spec acc.s.models mr hpairM hmem
  have hsplice : jsSpliceRemove acc.s.models (indexOfModel acc.s.models mr) =
      acc.s.models.filter (fun x => decide (x.cid ≠ mr.cid)) := by
    rw [hidx, jsSpliceRemove_nat _ _ hn, hfil]
  have hp1 : byIdDelete (match modelId mr.attrs with
      | some i => byIdDelete (byIdDelete acc.s.byId (.inl mr.cid)) (.inr i)
      | none => byIdDelete acc.s.byId (.inl mr.cid)) (.inl mr.cid) =
      (match modelId mr.attrs with
      | some i => byIdDelete (byIdDelete acc.s.byId (.inl mr.cid)) (.inr i)
      | none => byIdDelete acc.s.byId (.inl mr.cid)) := by
    rcases modelId mr.attrs with _ | i
    · exact byIdDelete_idem _ _
    · rw [byIdDelete_comm _ (Sum.inr i) (Sum.inl mr.cid), byIdDelete_idem]
  have hp2 : ∀ j, modelId mr.attrs = some j →
      byIdDelete (match modelId mr.attrs with
      | some i => byIdDelete (byIdDelete acc.s.byId (.inl mr.cid)) (.inr i)
      | none => byIdDelete acc.s.byId (.inl mr.cid)) (.inr j) =
      (match modelId mr.attrs with
      | some i => byIdDelete (byIdDelete acc.s.byId (.inl mr.cid)) (.inr i)
      | none => byIdDelete acc.s.byId (.inl mr.cid)) := by
    intro j hj
    rw [hj]
    exact byIdDelete_idem _ _
  have hstate : (removeOne silent acc arg).s =
      { acc.s with
          models := acc.s.models.filter (fun x => decide (x.cid ≠ mr.cid)),
          length := acc.s.length - 1,
          byId := (match modelId mr.attrs with
            | some i => byIdDelete (byIdDelete acc.s.byId (.inl mr.cid)) (.inr i)
            | none => byIdDelete acc.s.byId (.inl mr.cid)) } := by
    rw [removeOne_some_shape silent acc arg mr hres,
      removeReference_purged _ _ hp1 hp2, hsplice]
  have hflen : (acc.s.models.filter (fun x => decide (x.cid ≠ mr.cid))).length =
      acc.s.models.length - 1 := by
    rw [← hfil]
    simp only [List.length_append, List.length_take, List.length_drop]
    omega
  have hcidne : ∀ x ∈ acc.s.models.filter (fun x => decide (x.cid ≠ mr.cid)) ++
      pending, x.cid ≠ mr.cid := by
    intro x hx
    rcases List.mem_append.mp hx with hx1 | hx2
    · have := (List.mem_filter.mp hx1).2
      simpa using this
    · have := (List.pairwise_append.mp h2).2.2 mr hmem x hx2
      exact fun hh => this hh.symm
  have hmemold : ∀ x ∈ acc.s.models.filter (fun x => decide (x.cid ≠ mr.cid)) ++
      pending, x ∈ acc.s.models ++ pending := by
    intro x hx
    rcases List.mem_append.mp hx with hx1 | hx2
    · exact List.mem_append.mpr (Or.inl (List.mem_filter.mp hx1).1)
    · exact List.mem_append.mpr (Or.inr hx2)
  have hlookB : ∀ k : ByIdKey, (k ≠ .inl mr.cid) →
      (∀ i, modelId mr.attrs = some i → k ≠ .inr i) →
      byIdLookup (match modelId mr.attrs with
        | some i => byIdDelete (byIdDelete acc.s.byId (.inl mr.cid)) (.inr i)
        | none => byIdDelete acc.s.byId (.inl mr.cid)) k =
        byIdLookup acc.s.byId k := by
    intro k hk1 hk2
    rcases hmid : modelId mr.attrs with _ | i
    · rw [byIdLookup_delete, if_neg hk1]
    · rw [byIdLookup_delete, if_neg (hk2 i hmid), byIdLookup_delete, if_neg hk1]
  rw [hstate]
  dsimp only
  refine ⟨rfl, ⟨?_, ?_, ?_, ?_, ?_, ?_, ?_⟩, rfl, rfl, rfl⟩
  · show acc.s.length - 1 = _
    rw [h1, hflen]
    omega
  · exact h2.sublist (List.Sublist.append_right (List.filter_sublist _) pending)
  · intro x hx
    exact h3 x (hmemold x hx)
  · intro x hx
    rw [hlookB _ (fun hh => hcidne x hx (Sum.inl.inj hh)) (fun i _ hh => by
      exact absurd hh (by simp))]
    exact h4 x (hmemold x hx)
  · intro x hx j hj
    have hxl := h5 x (hmemold x hx) j hj
    rw [hlookB _ (by simp) ?hne]
    · exact hxl
    case hne =>
      intro i hmi hh
      have hmrl := h5 mr (List.mem_append.mpr (Or.inl hmem)) i (by simp [hmi])
      rw [← Sum.inr.inj hh] at hmrl
      rw [hxl] at hmrl
      exact hcidne x hx (congrArg SkModel.cid (Option.some.inj hmrl))
  · rcases modelId mr.attrs with _ | i
    · exact byIdDelete_pairwise _ _ h6
    · exact byIdDelete_pairwise _ _ (byIdDelete_pairwise _ _ h6)
  · intro p hp
    have hp0 : p ∈ (match modelId mr.attrs with
        | some i => byIdDelete (byIdDelete acc.s.byId (.inl mr.cid)) (.inr i)
        | none => byIdDelete acc.s.byId (.inl mr.cid)) := hp
    have hpB : p ∈ acc.s.byId ∧ p.1 ≠ Sum.inl mr.cid ∧
        (∀ i, modelId mr.attrs = some i → p.1 ≠ Sum.inr i) := by
      revert hp0
      rcases hmid : modelId mr.attrs with _ | i
      · intro hp0
        have hq : p ∈ byIdDelete acc.s.byId (.inl mr.cid) := hp0
        have := (mem_byIdDelete _ _ _).mp hq
        refine ⟨this.1, this.2, fun i hi => ?_⟩
        exact Option.noConfusion hi
      · intro hp0
        have hq : p ∈ byIdDelete (byIdDelete acc.s.byId (.inl mr.cid))
            (.inr i) := hp0
        have ha := (mem_byIdDelete _ _ _).mp hq
        have hb := (mem_byIdDelete _ _ _).mp ha.1
        refine ⟨hb.1, hb.2, ?_⟩
        intro j hj
        rw [← Option.some.inj hj]
        exact ha.2
    obtain ⟨hpmem, hpk1, hpk2⟩ := hpB
    obtain ⟨hmem2, hkey⟩ := h7 p hpmem
    refine ⟨?_, hkey⟩
    rcases List.mem_append.mp hmem2 with hm1 | hm2
    · refine List.mem_append.mpr (Or.inl (List.mem_filter.mpr ⟨hm1, ?_⟩))
      simp only [decide_eq_true_eq]
      intro hcc
      have hpm : p.2 = mr := eq_of_mem_pairwise_cid _ hpairM p.2 mr hm1 hmem hcc
      rw [hpm] at hkey
      cases hk : p.1 with
      | inl cc =>
        rw [hk] at hkey
        have : cc = mr.cid := (show mr.cid = cc from hkey).symm
        exact hpk1 (by rw [hk, this])
      | inr jj =>
        rw [hk] at hkey
        exact hpk2 jj hkey (by rw [hk])
    · exact List.mem_append.mpr (Or.inr hm2)

theorem getC_modelArg_of_wfx (s : CState) (pending : List SkModel)
    (hwf : WFX s pending) (m : SkModel) (hm : m ∈ s.models ++ pending) :
    getC s (.modelArg m) = some m :=
  getC_modelArg_self s m (hwf.2.2.2.1 m hm) (hwf.2.2.2.2.1 m hm)

theorem removeModels_list_wfx (silent : Bool) :
    ∀ (R : List SkModel) (acc : RemAcc) (pending : List SkModel),
    WFX acc.s pending → (∀ m ∈ R, m ∈ acc.s.models) →
    R.Pairwise (fun a b => a.cid ≠ b.cid) →
    WFX ((R.map GetArg.modelArg).foldl (removeOne silent) acc).s pending ∧
    ((R.map GetArg.modelArg).foldl (removeOne silent) acc).s.models =
      acc.s.models.filter (fun x => decide (x.cid ∉ R.map SkModel.cid)) := by
  intro R
  induction R with
  | nil =>
    intro acc pending hwf _ _
    exact ⟨hwf, (List.filter_eq_self.mpr (fun x _ => by simp)).symm⟩
  | cons m R' ih =>
    intro acc pending hwf hR hpair
    rw [List.pairwise_cons] at hpair
    have hres : getC acc.s (.modelArg m) = some m :=
      getC_modelArg_of_wfx acc.s pending hwf m
        (List.mem_append.mpr (Or.inl (hR m (List.mem_cons_self _ _))))
    obtain ⟨hmodels, hwf', _, _, _⟩ :=
      removeOne_wfx silent acc (.modelArg m) pending m hwf hres
        (hR m (List.mem_cons_self _ _))
    rw [List.map_cons, List.foldl_cons]
    have hR' : ∀ x ∈ R', x ∈ (removeOne silent acc (.modelArg m)).s.models := by
      intro x hx
      rw [hmodels]
      refine List.mem_filter.mpr ⟨hR x (List.mem_cons_of_mem _ hx), ?_⟩
      simp only [decide_eq_true_eq]
      exact fun hh => hpair.1 x hx hh.symm
    obtain ⟨hwf2, hmodels2⟩ := ih (removeOne silent acc (.modelArg m)) pending
      hwf' hR' hpair.2
    refine ⟨hwf2, ?_⟩
    rw [hmodels2, hmodels, List.filter_filter]
    refine List.filter_congr ?_
    intro x _
    by_cases h1 : x.cid = m.cid <;> by_cases h2 : x.cid ∈ R'.map SkModel.cid <;>
      simp [h1, h2]

theorem removeModels_any_wf (silent : Bool) :
    ∀ (args : List GetArg) (acc : RemAcc), WFX acc.s [] →
    WFX (args.foldl (removeOne silent) acc).s [] := by
  intro args
  induction args with
  | nil => intro acc hwf; exact hwf
  | cons arg rest ih =>
    intro acc hwf
    rw [List.foldl_cons]
    refine ih _ ?_
    rcases hres : getC acc.s arg with _ | mr
    · show WFX (removeOne silent acc arg).s []
      simp only [removeOne, hres]
      exact hwf
    · have hmem : mr ∈ acc.s.models := by
        have := getC_some_mem acc.s arg mr (acc.s.models ++ [])
          (fun p hp => hwf.2.2.2.2.2.2 p hp) hres
        simpa using this
      exact (removeOne_wfx silent acc arg [] mr hwf hres hmem).2.1

theorem removeC_wf (s : CState) (args : List GetArg) (opts : Opts)
    (hwf : WF s) : WF (removeC s args opts).state := by
  have h := removeModels_any_wf (opts.silent.getD false) args
    { s := s, trace := [], removed := [], curIdx := opts.index } hwf
  unfold removeC removeModels
  dsimp only
  exact h

theorem WFX_absorb (s : CState) (pending M : List SkModel) (hwf : WFX s pending)
    (hperm : List.Perm M (s.models ++ pending)) :
    WF { s with models := M, length := (M.length : Int) } := by
  obtain ⟨h1, h2, h3, h4, h5, h6, h7⟩ := hwf
  refine ⟨rfl, ?_, ?_, ?_, ?_, h6, ?_⟩
  · show (M ++ []).Pairwise _
    rw [List.append_nil]
    exact (hperm.pairwise_iff (fun hab => Ne.symm hab)).mpr h2
  · intro x hx
    rw [List.append_nil] at hx
    exact h3 x (hperm.mem_iff.mp hx)
  · intro x hx
    rw [List.append_nil] at hx
    exact h4 x (hperm.mem_iff.mp hx)
  · intro x hx
    rw [List.append_nil] at hx
    exact h5 x (hperm.mem_iff.mp hx)
  · intro p hp
    obtain ⟨hmem, hkey⟩ := h7 p hp
    refine ⟨?_, hkey⟩
    rw [List.append_nil]
    exact hperm.mem_iff.mpr hmem

theorem WF_models_perm (s : CState) (M : List SkModel) (hwf : WF s)
    (hperm : List.Perm M s.models) : WF { s with models := M } := by
  obtain ⟨h1, h2, h3, h4, h5, h6, h7⟩ := hwf
  refine ⟨?_, ?_, ?_, ?_, ?_, h6, ?_⟩
  · show s.length = ((M.length : Nat) : Int)
    rw [hperm.length_eq]
    exact h1
  · show (M ++ []).Pairwise _
    rw [List.append_nil]
    rw [List.append_nil] at h2
    exact (hperm.pairwise_iff (fun hab => Ne.symm hab)).mpr h2
  · intro x hx
    rw [List.append_nil] at hx
    exact h3 x (by rw [List.append_nil]; exact hperm.mem_iff.mp hx)
  · intro x hx
    rw [List.append_nil] at hx
    exact h4 x (by rw [List.append_nil]; exact hperm.mem_iff.mp hx)
  · intro x hx
    rw [List.append_nil] at hx
    exact h5 x (by rw [List.append_nil]; exact hperm.mem_iff.mp hx)
  · intro p hp
    obtain ⟨hmem, hkey⟩ := h7 p hp
    rw [List.append_nil] at hmem
    refine ⟨?_, hkey⟩
    rw [List.append_nil]
    exact hperm.mem_iff.mpr hmem

theorem setSortPhase_wf (s : CState) (sf : Bool) (hwf : WF s) :
    WF (setSortPhase s sf) := by
  unfold setSortPhase
  split
  · refine WF_models_perm s _ hwf ?_
    cases hc : s.comparator with
    | none => exact List.Perm.refl _
    | some c => exact sortModels_perm c s.models
  · exact hwf

theorem resolveCids_of_lookup (s : CState) (l : List SkModel)
    (h : ∀ p ∈ l, byIdLookup s.byId (.inl p.cid) = some p) :
    resolveCids s (cidsOf l) = l := by
  induction l with
  | nil => rfl
  | cons m rest ih =>
    show List.filterMap _ (m.cid :: rest.map (fun x => x.cid)) = m :: rest
    rw [List.filterMap_cons, h m (List.mem_cons_self _ _)]
    exact congrArg (m :: ·) (ih (fun p hp => h p (List.mem_cons_of_mem _ hp)))

theorem resolveCids_cids (s : CState) (cids : List Nat)
    (hall : ∀ c ∈ cids, ∃ m, byIdLookup s.byId (.inl c) = some m ∧ m.cid = c) :
    (resolveCids s cids).map (fun m => m.cid) = cids := by
  induction cids with
  | nil => rfl
  | cons c rest ih =>
    obtain ⟨m, hm, hc⟩ := hall c (List.mem_cons_self _ _)
    show ((List.filterMap _ (c :: rest)).map _) = c :: rest
    rw [List.filterMap_cons, hm]
    show m.cid :: (resolveCids s rest).map _ = c :: rest
    rw [hc, ih (fun c' hc' => hall c' (List.mem_cons_of_mem _ hc'))]

theorem spliceList_perm (arr ins : List SkModel) (i : Int) :
    List.Perm (spliceList arr ins i) (arr ++ ins) := by
  unfold spliceList
  dsimp only
  rw [List.append_assoc]
  refine (List.Perm.append_left _ (List.perm_append_comm)).trans ?_
  rw [← List.append_assoc, List.take_append_drop]

theorem spliceList_from_nil (ins : List SkModel) :
    spliceList [] ins 0 = ins := by
  simp [spliceList]

theorem anyPositionDiffers_self (l : List SkModel) :
    anyPositionDiffers l l = false := by
  induction l with
  | nil => rfl
  | cons m rest ih => simp [anyPositionDiffers, ih]

theorem attrsDiffer_self (a : Attrs) : attrsDiffer a a = false := by
  unfold attrsDiffer
  rw [List.any_eq_false]
  intro x _
  simp

theorem hasChangedAttr_self (a : Attrs) (sortAttr : Option String) :
    hasChangedAttr a a sortAttr = false := by
  unfold hasChangedAttr
  cases sortAttr with
  | none => exact attrsDiffer_self a
  | some k => simp

theorem mergeExisting_no_rekey (s : CState) (ex : SkModel) (a : Attrs)
    (sil : Bool) (h : modelId (mergeAttrs ex.attrs a) = modelId ex.attrs) :
    mergeExisting s ex a sil =
      (updateModelValue s { ex with attrs := mergeAttrs ex.attrs a },
       { ex with attrs := mergeAttrs ex.attrs a }) := by
  unfold mergeExisting
  dsimp only
  rw [if_neg ?hc]
  case hc =>
    rintro ⟨_, hne⟩
    exact hne h.symm

theorem cidsOf_map_update (pending : List SkModel) (ex' : SkModel) :
    cidsOf (pending.map (fun x => if x.cid = ex'.cid then ex' else x)) =
      cidsOf pending := by
  unfold cidsOf
  rw [List.map_map]
  exact List.map_congr_left (fun x _ => upd_model_cid ex' x)

theorem loopStep_inv (cfg : SetCfg) (acc : LoopAcc) (a : Attrs)
    (hjs : jsObj a) (hnc : attrLookup a "cid" = none)
    (hinv : LoopInv acc) : LoopInv (loopStep cfg acc (RawItem.attrsItem a)) := by
  obtain ⟨pending, hwf, htoAdd, hnodup, hres, hsub⟩ := hinv
  rcases hg : getC acc.s (RawItem.attrsItem a).toGetArg with _ | existing
  · by_cases hadd : cfg.addE = true
    · rcases hv : acc.s.validate a with _ | err
      · have hstep : loopStep cfg acc (RawItem.attrsItem a) =
            { s := addReference { acc.s with nextCid := acc.s.nextCid + 1 }
                { cid := acc.s.nextCid, attrs := a, validationError := none },
              setL := acc.setL ++ [acc.s.nextCid],
              toAdd := acc.toAdd ++ [acc.s.nextCid],
              toMerge := acc.toMerge,
              ret := acc.ret ++ [SetRet.modelRef acc.s.nextCid],
              sortFlag := acc.sortFlag, invalids := acc.invalids } := by
          simp [loopStep, hg, hadd, prepareModel, hv]
        rw [hstep]
        have hfresh : ∀ i, modelId a = some i →
            byIdLookup acc.s.byId (.inr i) = none :=
          fun i hi => getC_attrs_none_id acc.s a hg i hi
        have hwf' := addReference_wfx acc.s pending
          { cid := acc.s.nextCid, attrs := a, validationError := none }
          hwf rfl hfresh
        have hfreshL : acc.s.nextCid ∉ acc.setL := by
          intro hc
          obtain ⟨m2, hm2, hc2⟩ := hres _ hc
          exact absurd (hc2 ▸ hwf.2.2.1 m2 hm2) (Nat.lt_irrefl _)
        refine ⟨pending ++ [{ cid := acc.s.nextCid, attrs := a, validationError := none }], hwf', ?_, ?_, ?_, ?_⟩
        · show acc.toAdd ++ [acc.s.nextCid] = _
          unfold cidsOf at htoAdd ⊢
          rw [List.map_append, ← htoAdd]
          rfl
        · rw [List.nodup_append]
          exact ⟨hnodup, List.nodup_singleton _, by
            intro x hx hx2
            rw [List.mem_singleton.mp hx2] at hx
            exact hfreshL hx⟩
        · intro c hc
          rcases List.mem_append.mp hc with hc1 | hc2
          · obtain ⟨m2, hm2, hc2⟩ := hres c hc1
            refine ⟨m2, ?_, hc2⟩
            rcases List.mem_append.mp hm2 with hm | hm
            · exact List.mem_append.mpr (Or.inl hm)
            · exact List.mem_append.mpr (Or.inr (List.mem_append.mpr (Or.inl hm)))
          · refine ⟨{ cid := acc.s.nextCid, attrs := a, validationError := none },
              ?_, (List.mem_singleton.mp hc2).symm⟩
            exact List.mem_append.mpr (Or.inr (List.mem_append.mpr
              (Or.inr (List.mem_singleton.mpr rfl))))
        · intro c hc
          rcases List.mem_append.mp hc with hc1 | hc2
          · exact List.mem_append.mpr (Or.inl (hsub c hc1))
          · exact List.mem_append.mpr (Or.inr hc2)
      · have hstep : loopStep cfg acc (RawItem.attrsItem a) =
            { acc with
              s := { acc.s with nextCid := acc.s.nextCid + 1 },
              ret := acc.ret ++ [SetRet.fls],
              invalids := acc.invalids ++ [(SkEvent.invalid err,
                { acc.s with nextCid := acc.s.nextCid + 1 })] } := by
          simp [loopStep, hg, hadd, prepareModel, hv]
        rw [hstep]
        exact ⟨pending, WFX_nextCid_succ acc.s pending hwf, htoAdd, hnodup,
          hres, hsub⟩
    · have hadd' : cfg.addE = false := by simpa using hadd
      have hstep : loopStep cfg acc (RawItem.attrsItem a) =
          { acc with ret := acc.ret ++ [SetRet.raw (RawItem.attrsItem a)] } := by
        simp [loopStep, hg, hadd']
      rw [hstep]
      exact ⟨pending, hwf, htoAdd, hnodup, hres, hsub⟩
  · obtain ⟨i, hi, hlook⟩ := getC_attrs_resolve acc.s a existing hnc hg
    have h7 := hwf.2.2.2.2.2.2
    have hexmem : existing ∈ acc.s.models ++ pending :=
      (h7 _ (byIdLookup_mem _ _ _ hlook)).1
    have hexid : modelId existing.attrs = some i :=
      (h7 _ (byIdLookup_mem _ _ _ hlook)).2
    have hre : modelId (mergeAttrs existing.attrs a) = modelId existing.attrs :=
      (mergeAttrs_lookup_of_some existing.attrs a "id" i hjs hi).trans hexid.symm
    by_cases hme : cfg.mergeE = true
    · have hstep : loopStep cfg acc (RawItem.attrsItem a) =
          { s := updateModelValue acc.s
              { existing with attrs := mergeAttrs existing.attrs a },
            setL := if acc.setL.contains existing.cid then acc.setL
              else acc.setL ++ [existing.cid],
            toAdd := acc.toAdd,
            toMerge := acc.toMerge ++ [existing.cid],
            ret := acc.ret ++ [SetRet.modelRef existing.cid],
            sortFlag := if cfg.sortable && !acc.sortFlag then
                hasChangedAttr existing.attrs
                  (mergeAttrs existing.attrs a) cfg.sortAttr
              else acc.sortFlag,
            invalids := acc.invalids } := by
        simp [loopStep, hg, hme, sameInstance, RawItem.attrsOf,
          mergeExisting_no_rekey acc.s existing a cfg.silent hre]
      rw [hstep]
      have hwf' := updateModel_wfx acc.s pending existing
        { existing with attrs := mergeAttrs existing.attrs a } hwf hexmem rfl hre
      have hwit : ∀ m ∈ acc.s.models ++ pending,
          ∃ m2 ∈ (updateModelValue acc.s
            { existing with attrs := mergeAttrs existing.attrs a }).models ++
            pending.map (fun x => if x.cid =
              ({ existing with attrs := mergeAttrs existing.attrs a } :
                SkModel).cid then
              { existing with attrs := mergeAttrs existing.attrs a } else x),
            m2.cid = m.cid := by
        intro m hm
        refine ⟨(fun x => if x.cid = ({ existing with
            attrs := mergeAttrs existing.attrs a } : SkModel).cid then
            { existing with attrs := mergeAttrs existing.attrs a } else x) m,
          ?_, upd_model_cid _ m⟩
        rcases List.mem_append.mp hm with h | h
        · exact List.mem_append.mpr (Or.inl (List.mem_map_of_mem _ h))
        · exact List.mem_append.mpr (Or.inr (List.mem_map_of_mem _ h))
      refine ⟨pending.map (fun x => if x.cid =
          ({ existing with attrs := mergeAttrs existing.attrs a } : SkModel).cid
          then { existing with attrs := mergeAttrs existing.attrs a } else x),
        hwf', ?_, ?_, ?_, ?_⟩
      · show acc.toAdd = _
        rw [cidsOf_map_update]
        exact htoAdd
      · dsimp only
        split
        · exact hnodup
        · next hcon =>
          rw [List.nodup_append]
          refine ⟨hnodup, List.nodup_singleton _, ?_⟩
          intro x hx hx2
          rw [List.mem_singleton.mp hx2] at hx
          exact hcon (by simpa using hx)
      · intro c hc
        have hc' : c ∈ acc.setL ∨ c = existing.cid := by
          dsimp only at hc
          split at hc
          · exact Or.inl hc
          · rcases List.mem_append.mp hc with h | h
            · exact Or.inl h
            · exact Or.inr (List.mem_singleton.mp h)
        rcases hc' with hc1 | rfl
        · obtain ⟨m2, hm2, hcc⟩ := hres c hc1
          obtain ⟨m3, hm3, hc3⟩ := hwit m2 hm2
          exact ⟨m3, hm3, hc3.trans hcc⟩
        · obtain ⟨m3, hm3, hc3⟩ := hwit existing hexmem
          exact ⟨m3, hm3, hc3⟩
      · intro c hc
        have hold := hsub c hc
        dsimp only
        split
        · exact hold
        · exact List.mem_append.mpr (Or.inl hold)
    · have hme' : cfg.mergeE = false := by simpa using hme
      have hstep : loopStep cfg acc (RawItem.attrsItem a) =
          { s := acc.s,
            setL := if acc.setL.contains existing.cid then acc.setL
              else acc.setL ++ [existing.cid],
            toAdd := acc.toAdd, toMerge := acc.toMerge,
            ret := acc.ret ++ [SetRet.modelRef existing.cid],
            sortFlag := acc.sortFlag, invalids := acc.invalids } := by
        simp [loopStep, hg, hme', sameInstance]
      rw [hstep]
      refine ⟨pending, hwf, htoAdd, ?_, ?_, ?_⟩
      · dsimp only
        split
        · exact hnodup
        · next hcon =>
          rw [List.nodup_append]
          refine ⟨hnodup, List.nodup_singleton _, ?_⟩
          intro x hx hx2
          rw [List.mem_singleton.mp hx2] at hx
          exact hcon (by simpa using hx)
      · intro c hc
        have hc' : c ∈ acc.setL ∨ c = existing.cid := by
          dsimp only at hc
          split at hc
          · exact Or.inl hc
          · rcases List.mem_append.mp hc with h | h
            · exact Or.inl h
            · exact Or.inr (List.mem_singleton.mp h)
        rcases hc' with hc1 | rfl
        · exact hres c hc1
        · exact ⟨existing, hexmem, rfl⟩
      · intro c hc
        have hold := hsub c hc
        dsimp only
        split
        · exact hold
        · exact List.mem_append.mpr (Or.inl hold)

theorem foldl_loopStep_inv (cfg : SetCfg) (items : List Attrs)
    (hitems : ∀ a ∈ items, jsObj a ∧ attrLookup a "cid" = none) :
    ∀ acc : LoopAcc, LoopInv acc →
      LoopInv ((items.map RawItem.attrsItem).foldl (loopStep cfg) acc) := by
  induction items with
  | nil => intro acc h; exact h
  | cons a rest ih =>
    intro acc h
    rw [List.map_cons, List.foldl_cons]
    exact ih (fun x hx => hitems x (List.mem_cons_of_mem _ hx)) _
      (loopStep_inv cfg acc a (hitems a (List.mem_cons_self _ _)).1
        (hitems a (List.mem_cons_self _ _)).2 h)

theorem setLoop_inv (cfg : SetCfg) (s : CState) (items : List Attrs)
    (hwf : WF s) (hitems : ∀ a ∈ items, jsObj a ∧ attrLookup a "cid" = none) :
    LoopInv (setLoop cfg s (items.map RawItem.attrsItem)) := by
  unfold setLoop
  refine foldl_loopStep_inv cfg items hitems _ ?_
  exact ⟨[], hwf, rfl, List.nodup_nil,
    fun c hc => absurd hc (List.not_mem_nil c),
    fun c hc => absurd hc (List.not_mem_nil c)⟩

theorem setStructural_phase (sortable addE removeE : Bool) (acc : LoopAcc)
    (s2 : CState) (atR : Option Int) (pending : List SkModel)
    (hwfx : WFX s2 pending)
    (htoAdd : acc.toAdd = cidsOf pending)
    (hnodup : acc.setL.Nodup)
    (hres : ∀ c ∈ acc.setL, ∃ m ∈ s2.models ++ pending, m.cid = c)
    (hsub : ∀ c ∈ acc.toAdd, c ∈ acc.setL)
    (hmem : removeE = true → ∀ x ∈ s2.models, x.cid ∈ acc.setL) :
    WF (setStructural sortable addE removeE acc s2 atR).s3 ∧
    (∀ x ∈ (setStructural sortable addE removeE acc s2 atR).s3.models,
      x ∈ s2.models ++ pending) ∧
    (∀ k ∈ s2.models, k.cid ∈ acc.setL →
      k ∈ (setStructural sortable addE removeE acc s2 atR).s3.models) ∧
    (setStructural sortable addE removeE acc s2 atR).s3.models.length ≤
      s2.models.length + pending.length := by
  unfold setStructural
  dsimp only
  split
  · next hcond =>
    have hrem : removeE = true := by
      have hc2 := hcond.2
      simp only [Bool.and_eq_true] at hc2
      exact hc2.2
    have hmem' := hmem hrem
    have hsetM_sub : ∀ x ∈ resolveCids s2 acc.setL, x ∈ s2.models ++ pending := by
      intro x hx
      obtain ⟨c, _, hlk⟩ := List.mem_filterMap.mp hx
      exact (hwfx.2.2.2.2.2.2 _ (byIdLookup_mem _ _ _ hlk)).1
    have hsetM_back : ∀ x ∈ s2.models ++ pending,
        x ∈ resolveCids s2 acc.setL := by
      intro x hx
      have hcid : x.cid ∈ acc.setL := by
        rcases List.mem_append.mp hx with h | h
        · exact hmem' x h
        · refine hsub x.cid ?_
          rw [htoAdd]
          exact List.mem_map_of_mem _ h
      exact List.mem_filterMap.mpr ⟨x.cid, hcid, hwfx.2.2.2.1 x hx⟩
    have hcids : (resolveCids s2 acc.setL).map (fun m => m.cid) = acc.setL :=
      resolveCids_cids s2 acc.setL (fun c hc => by
        obtain ⟨m2, hm2, hc2⟩ := hres c hc
        exact ⟨m2, by rw [← hc2]; exact hwfx.2.2.2.1 m2 hm2, hc2⟩)
    have hndM : (resolveCids s2 acc.setL).Nodup := by
      have hnm : ((resolveCids s2 acc.setL).map (fun m => m.cid)).Nodup := by
        rw [hcids]
        exact hnodup
      exact List.Nodup.of_map _ hnm
    have hndL : (s2.models ++ pending).Nodup := nodup_of_pairwise_cid _ hwfx.2.1
    have hperm : List.Perm (resolveCids s2 acc.setL) (s2.models ++ pending) := by
      rw [List.perm_ext_iff_of_nodup hndM hndL]
      exact fun x => ⟨hsetM_sub x, hsetM_back x⟩
    rw [spliceList_from_nil]
    refine ⟨WFX_absorb s2 pending _ hwfx hperm, ?_, ?_, ?_⟩
    · intro x hx
      exact hsetM_sub x hx
    · intro k hk _
      exact hsetM_back k (List.mem_append.mpr (Or.inl hk))
    · rw [hperm.length_eq, List.length_append]
  · split
    · next hta =>
      have hpend : resolveCids s2 acc.toAdd = pending := by
        rw [htoAdd]
        exact resolveCids_of_lookup s2 pending (fun p hp =>
          hwfx.2.2.2.1 p (List.mem_append.mpr (Or.inr hp)))
      rw [hpend]
      have hperm2 : List.Perm (spliceList s2.models pending
          (match atR with | some a => a | none => s2.length))
          (s2.models ++ pending) := spliceList_perm _ _ _
      refine ⟨WFX_absorb s2 pending _ hwfx hperm2, ?_, ?_, ?_⟩
      · intro x hx
        exact hperm2.mem_iff.mp hx
      · intro k hk _
        exact mem_spliceList_of_mem_left _ _ _ k hk
      · rw [hperm2.length_eq, List.length_append]
    · next hta =>
      have hta' : acc.toAdd = [] := by
        by_cases h : acc.toAdd = []
        · exact h
        · exact absurd h hta
      have hpnil : pending = [] := by
        have hcn : cidsOf pending = [] := by rw [← htoAdd]; exact hta'
        exact List.map_eq_nil_iff.mp hcn
      subst hpnil
      refine ⟨hwfx, ?_, ?_, ?_⟩
      · intro x hx
        exact List.mem_append.mpr (Or.inl hx)
      · intro k hk _
        exact hk
      · exact Nat.le_add_right _ _

theorem setRemovePhase_facts (acc : LoopAcc) (silent : Bool) (idx0 : Option Int)
    (removeE : Bool) (pending : List SkModel)
    (hwfx : WFX acc.s pending)
    (hres : ∀ c ∈ acc.setL, ∃ m ∈ acc.s.models ++ pending, m.cid = c) :
    WFX (setRemovePhase acc (setToRemove removeE acc) silent idx0).s pending ∧
    (∀ c ∈ acc.setL, ∃ m ∈ (setRemovePhase acc (setToRemove removeE acc)
      silent idx0).s.models ++ pending, m.cid = c) ∧
    (removeE = true → ∀ x ∈ (setRemovePhase acc (setToRemove removeE acc)
      silent idx0).s.models, x.cid ∈ acc.setL) ∧
    (∀ x ∈ (setRemovePhase acc (setToRemove removeE acc) silent idx0).s.models,
      x ∈ acc.s.models) ∧
    (∀ x ∈ acc.s.models, x.cid ∈ acc.setL →
      x ∈ (setRemovePhase acc (setToRemove removeE acc) silent idx0).s.models) ∧
    (setRemovePhase acc (setToRemove removeE acc) silent idx0).s.models.length ≤
      acc.s.models.length := by
  by_cases hrm : removeE = true
  · subst hrm
    have heq : setToRemove true acc =
        acc.s.models.filter (fun m => !(acc.setL.contains m.cid)) := by
      simp [setToRemove]
    rw [heq]
    by_cases hF : acc.s.models.filter (fun m => !(acc.setL.contains m.cid)) = []
    · rw [hF, setRemovePhase_nil]
      have hall := List.filter_eq_nil_iff.mp hF
      refine ⟨hwfx, hres, fun _ x hx => ?_, fun x hx => hx,
        fun x hx _ => hx, Nat.le_refl _⟩
      have := hall x hx
      simpa using this
    · have hsp : setRemovePhase acc
          (acc.s.models.filter (fun m => !(acc.setL.contains m.cid)))
          silent idx0 =
          removeModels acc.s
            ((acc.s.models.filter (fun m => !(acc.setL.contains m.cid))).map
              (fun m => GetArg.modelArg m)) silent idx0 := by
        unfold setRemovePhase
        rw [if_pos hF]
      rw [hsp]
      have hpairM : acc.s.models.Pairwise (fun a b => a.cid ≠ b.cid) :=
        (List.pairwise_append.mp hwfx.2.1).1
      have hR : ∀ m ∈ acc.s.models.filter (fun m => !(acc.setL.contains m.cid)),
          m ∈ acc.s.models := fun m hm => (List.mem_filter.mp hm).1
      have hpairR : (acc.s.models.filter
          (fun m => !(acc.setL.contains m.cid))).Pairwise
          (fun a b => a.cid ≠ b.cid) :=
        hpairM.sublist (List.filter_sublist _)
      obtain ⟨hwf2, hmodels2⟩ := removeModels_list_wfx silent
        (acc.s.models.filter (fun m => !(acc.setL.contains m.cid)))
        { s := acc.s, trace := [], removed := [], curIdx := idx0 }
        pending hwfx hR hpairR
      have hfoldeq : removeModels acc.s
          ((acc.s.models.filter (fun m => !(acc.setL.contains m.cid))).map
            (fun m => GetArg.modelArg m)) silent idx0 =
          (((acc.s.models.filter (fun m => !(acc.setL.contains m.cid))).map
            GetArg.modelArg).foldl (removeOne silent)
            { s := acc.s, trace := [], removed := [], curIdx := idx0 }) := rfl
      rw [hfoldeq, hmodels2]
      have hnotR : ∀ x : SkModel, x.cid ∈ acc.setL →
          x.cid ∉ (acc.s.models.filter
            (fun m => !(acc.setL.contains m.cid))).map SkModel.cid := by
        intro x hxl hmm
        obtain ⟨y, hy, hyc⟩ := List.mem_map.mp hmm
        have hyns : y.cid ∉ acc.setL := by
          have := (List.mem_filter.mp hy).2
          simpa using this
        rw [hyc] at hyns
        exact hyns hxl
      refine ⟨hwf2, ?_, ?_, ?_, ?_, ?_⟩
      · intro c hc
        obtain ⟨m2, hm2, hc2⟩ := hres c hc
        rcases List.mem_append.mp hm2 with hm | hm
        · refine ⟨m2, List.mem_append.mpr (Or.inl (List.mem_filter.mpr
            ⟨hm, ?_⟩)), hc2⟩
          simp only [decide_eq_true_eq]
          intro hmm
          obtain ⟨y, hy, hyc⟩ := List.mem_map.mp hmm
          have hyns : y.cid ∉ acc.setL := by
            have := (List.mem_filter.mp hy).2
            simpa using this
          rw [hyc, hc2] at hyns
          exact hyns hc
        · exact ⟨m2, List.mem_append.mpr (Or.inr hm), hc2⟩
      · intro _ x hx
        have hxm := List.mem_filter.mp hx
        have hxn : x.cid ∉ (acc.s.models.filter
            (fun m => !(acc.setL.contains m.cid))).map SkModel.cid := by
          have := hxm.2
          simpa using this
        by_contra hxs
        refine hxn (List.mem_map.mpr ⟨x, List.mem_filter.mpr ⟨hxm.1, ?_⟩, rfl⟩)
        simpa using hxs
      · intro x hx
        exact (List.mem_filter.mp hx).1
      · intro x hx hxl
        refine List.mem_filter.mpr ⟨hx, ?_⟩
        simp only [decide_eq_true_eq]
        exact hnotR x hxl
      · exact List.length_filter_le _ _
  · have hrm' : removeE = false := by simpa using hrm
    subst hrm'
    rw [setToRemove_false, setRemovePhase_nil]
    exact ⟨hwfx, hres, fun hc => absurd hc (by simp), fun x hx => hx,
      fun x hx _ => hx, Nat.le_refl _⟩

theorem setSortPhase_models_perm (s3 : CState) (sf : Bool) :
    List.Perm (setSortPhase s3 sf).models s3.models := by
  unfold setSortPhase
  split
  · cases s3.comparator with
    | none => exact List.Perm.refl _
    | some c => exact sortModels_perm c s3.models
  · exact List.Perm.refl _

theorem setSortPhase_length (s3 : CState) (sf : Bool) :
    (setSortPhase s3 sf).length = s3.length := by
  unfold setSortPhase
  split <;> rfl

theorem setC_wf (s : CState) (items : List Attrs) (opts : Opts) (hwf : WF s)
    (hitems : ∀ a ∈ items, jsObj a ∧ attrLookup a "cid" = none) :
    WF (setC s (items.map RawItem.attrsItem) opts).state := by
  obtain ⟨pending, hwfx, htoAdd, hnodup, hres, hsub⟩ :=
    setLoop_inv (setCfgOf s opts) s items hwf hitems
  obtain ⟨hA, hB, hC, _, _, _⟩ := setRemovePhase_facts
    (setLoop (setCfgOf s opts) s (items.map RawItem.attrsItem))
    (setCfgOf s opts).silent (setEffOpts opts).index
    (setCfgOf s opts).removeE pending hwfx hres
  rw [setC_state_decomp]
  exact setSortPhase_wf _ _
    (setStructural_phase (setCfgOf s opts).sortable (setCfgOf s opts).addE
      (setCfgOf s opts).removeE _ _ (setAtR s opts) pending
      hA htoAdd hnodup hB hsub hC).1

theorem addC_wf (s : CState) (items : List Attrs) (opts : Opts) (hwf : WF s)
    (hitems : ∀ a ∈ items, jsObj a ∧ attrLookup a "cid" = none) :
    WF (addC s (items.map RawItem.attrsItem) opts).state :=
  setC_wf s items (addOptsOf opts) hwf hitems

theorem WF_cleared (s : CState) :
    WF { s with length := 0, models := [], byId := [] } := by
  refine ⟨?_, ?_, ?_, ?_, ?_, ?_, ?_⟩ <;> simp [List.Pairwise.nil]

theorem resetC_wf (s : CState) (items : List Attrs) (opts : Opts)
    (hitems : ∀ a ∈ items, jsObj a ∧ attrLookup a "cid" = none) :
    WF (resetC s (items.map RawItem.attrsItem) opts).state := by
  show WF (addC _ (items.map RawItem.attrsItem)
    (extendO { silent := some true } opts)).state
  exact addC_wf _ items _ (WF_cleared _) hitems

theorem stepOp_wf (s : CState) (op : COp) (hwf : WF s) (hsafe : opSafe op) :
    WF (stepOp s op) := by
  cases op with
  | addOp items opts =>
    exact addC_wf s items opts hwf (fun a ha => ⟨hsafe.1 a ha, hsafe.2 a ha⟩)
  | removeOp args opts => exact removeC_wf s args opts hwf
  | setOp items opts =>
    exact setC_wf s items opts hwf (fun a ha => ⟨hsafe.1 a ha, hsafe.2 a ha⟩)
  | resetOp items opts =>
    exact resetC_wf s items opts (fun a ha => ⟨hsafe.1 a ha, hsafe.2 a ha⟩)

theorem runOps_wf (s : CState) (ops : List COp) (hwf : WF s)
    (hsafe : ∀ op ∈ ops, opSafe op) : WF (runOps s ops) := by
  induction ops generalizing s with
  | nil => exact hwf
  | cons op rest ih =>
    show WF (runOps (stepOp s op) rest)
    exact ih (stepOp s op)
      (stepOp_wf s op hwf (hsafe op (List.mem_cons_self _ _)))
      (fun o ho => hsafe o (List.mem_cons_of_mem _ ho))

theorem WF_invC1 (s : CState) (h : WF s) : InvC1 s := by
  obtain ⟨h1, _, _, h4, h5, _, h7⟩ := h
  refine ⟨h1, ?_, ?_⟩
  · intro m hm
    have hm' : m ∈ s.models ++ [] := by simpa using hm
    exact ⟨h4 m hm', fun i hi => h5 m hm' i hi⟩
  · intro p hp
    have := (h7 p hp).1
    simpa using this

theorem attrLookup_of_mem_nodup (a : Attrs) (k : String) (v : Int)
    (hnd : jsObj a) (hmem : (k, v) ∈ a) : attrLookup a k = some v := by
  induction a with
  | nil => simp at hmem
  | cons kv rest ih =>
    obtain ⟨k0, v0⟩ := kv
    simp only [jsObj, List.map_cons, List.nodup_cons] at hnd
    rcases List.mem_cons.mp hmem with he | hm
    · injection he with e1 e2
      subst e1
      subst e2
      simp [attrLookup]
    · by_cases hk : k0 = k
      · subst hk
        exact absurd (List.mem_map.mpr ⟨(k0, v), hm, rfl⟩) hnd.1
      · show (if k0 = k then some v0 else attrLookup rest k) = some v
        rw [if_neg hk]
        exact ih hnd.2 hm

theorem updateModelValue_self (s : CState) (m : SkModel) (hwf : WF s)
    (hm : m ∈ s.models) : updateModelValue s m = s := by
  have hpair : s.models.Pairwise (fun a b => a.cid ≠ b.cid) := by
    have h2 := hwf.2.1
    rw [List.append_nil] at h2
    exact h2
  have hmodels : s.models.map (fun x => if x.cid = m.cid then m else x) =
      s.models := by
    have hcg : ∀ x ∈ s.models, (if x.cid = m.cid then m else x) = x := by
      intro x hx
      by_cases h : x.cid = m.cid
      · rw [if_pos h]
        exact (eq_of_mem_pairwise_cid _ hpair x m hx hm h).symm
      · rw [if_neg h]
    calc s.models.map (fun x => if x.cid = m.cid then m else x)
        = s.models.map (fun x => x) := List.map_congr_left hcg
      _ = s.models := List.map_id' _
  have hbyid : s.byId.map (fun p => if p.2.cid = m.cid then (p.1, m) else p) =
      s.byId := by
    have hcg : ∀ p ∈ s.byId, (if p.2.cid = m.cid then (p.1, m) else p) = p := by
      intro p hp
      by_cases h : p.2.cid = m.cid
      · rw [if_pos h]
        have hp2 : p.2 ∈ s.models := by
          have := (hwf.2.2.2.2.2.2 p hp).1
          simpa using this
        have : p.2 = m := eq_of_mem_pairwise_cid _ hpair p.2 m hp2 hm h
        rw [← this]
      · rw [if_neg h]
    calc s.byId.map (fun p => if p.2.cid = m.cid then (p.1, m) else p)
        = s.byId.map (fun p => p) := List.map_congr_left hcg
      _ = s.byId := List.map_id' _
  unfold updateModelValue
  rw [hmodels, hbyid]

theorem loopStep_self (cfg : SetCfg) (acc : LoopAcc) (m : SkModel)
    (hwf : WF acc.s) (hm : m ∈ acc.s.models) (hjs : jsObj m.attrs)
    (hismid : (modelId m.attrs).isSome) :
    (loopStep cfg acc (RawItem.attrsItem m.attrs)).s = acc.s ∧
    (loopStep cfg acc (RawItem.attrsItem m.attrs)).toAdd = acc.toAdd ∧
    (loopStep cfg acc (RawItem.attrsItem m.attrs)).invalids = acc.invalids ∧
    (loopStep cfg acc (RawItem.attrsItem m.attrs)).sortFlag = acc.sortFlag ∧
    (loopStep cfg acc (RawItem.attrsItem m.attrs)).setL =
      (if acc.setL.contains m.cid then acc.setL
       else acc.setL ++ [m.cid]) := by
  rcases hmi : modelId m.attrs with _ | im
  · rw [hmi] at hismid
    simp at hismid
  · have h5m : byIdLookup acc.s.byId (.inr im) = some m :=
      hwf.2.2.2.2.1 m (by simpa using hm) im (by simp [hmi])
    have hg : getC acc.s (RawItem.attrsItem m.attrs).toGetArg = some m := by
      show ((modelId m.attrs).bind (fun j => byIdLookup acc.s.byId (.inr j))).orElse
        (fun _ => (attrLookup m.attrs "cid").bind
          (fun c => byIdLookup acc.s.byId (.inr c))) = some m
      rw [hmi, Option.some_bind, h5m]
      rfl
    have hmerge_self : mergeAttrs m.attrs m.attrs = m.attrs :=
      mergeAttrs_self_of_sub _ _ hjs
        (fun kv hkv => attrLookup_of_mem_nodup _ _ _ hjs hkv)
    have hmrg : mergeExisting acc.s m m.attrs cfg.silent = (acc.s, m) := by
      rw [mergeExisting_no_rekey acc.s m m.attrs cfg.silent
        (by rw [hmerge_self])]
      have hup : updateModelValue acc.s m = acc.s := updateModelValue_self _ _ hwf hm
      have hmm : ({ m with attrs := mergeAttrs m.attrs m.attrs } : SkModel) = m := by
        rw [hmerge_self]
      rw [hmm, hup]
    refine ⟨?_, ?_, ?_, ?_, ?_⟩
    · simp [loopStep, hg, RawItem.attrsOf, hmrg]
    · simp [loopStep, hg]
    · simp [loopStep, hg]
    · cases hsf : acc.sortFlag <;>
        simp [loopStep, hg, RawItem.attrsOf, hmrg, hsf, hasChangedAttr_self]
    · simp [loopStep, hg]

theorem loop_self_fold (cfg : SetCfg) (s : CState) (hwf : WF s)
    (hids : ∀ m ∈ s.models, jsObj m.attrs ∧ (modelId m.attrs).isSome) :
    ∀ (suf pre : List SkModel), s.models = pre ++ suf →
    ∀ acc : LoopAcc, acc.s = s → acc.toAdd = [] → acc.sortFlag = false →
      acc.invalids = [] → acc.setL = cidsOf pre →
    ((suf.map (fun m => RawItem.attrsItem m.attrs)).foldl
        (loopStep cfg) acc).s = s ∧
    ((suf.map (fun m => RawItem.attrsItem m.attrs)).foldl
        (loopStep cfg) acc).toAdd = [] ∧
    ((suf.map (fun m => RawItem.attrsItem m.attrs)).foldl
        (loopStep cfg) acc).sortFlag = false ∧
    ((suf.map (fun m => RawItem.attrsItem m.attrs)).foldl
        (loopStep cfg) acc).invalids = [] ∧
    ((suf.map (fun m => RawItem.attrsItem m.attrs)).foldl
        (loopStep cfg) acc).setL = cidsOf (pre ++ suf) := by
  intro suf
  induction suf with
  | nil =>
    intro pre _ acc h1 h2 h3 h4 h5
    rw [List.append_nil]
    exact ⟨h1, h2, h3, h4, h5⟩
  | cons m suf' ih =>
    intro pre hsplit acc h1 h2 h3 h4 h5
    have hm : m ∈ s.models := by
      rw [hsplit]
      exact List.mem_append.mpr (Or.inr (List.mem_cons_self _ _))
    obtain ⟨hjs, hismid⟩ := hids m hm
    have hwf' : WF acc.s := h1 ▸ hwf
    have hm' : m ∈ acc.s.models := by rw [h1]; exact hm
    obtain ⟨e1, e2, e3, e4, e5⟩ := loopStep_self cfg acc m hwf' hm' hjs hismid
    have hnodupc : (cidsOf s.models).Nodup := by
      have h2' := hwf.2.1
      rw [List.append_nil] at h2'
      exact List.pairwise_map.mpr h2'
    have hnotin : m.cid ∉ cidsOf pre := by
      rw [hsplit] at hnodupc
      have : cidsOf (pre ++ m :: suf') = cidsOf pre ++ m.cid :: cidsOf suf' := by
        unfold cidsOf
        rw [List.map_append, List.map_cons]
      rw [this] at hnodupc
      have hdisj := List.disjoint_of_nodup_append hnodupc
      exact fun hin => hdisj hin (List.mem_cons_self _ _)
    have hcon : acc.setL.contains m.cid = false := by
      rw [h5]
      simpa using hnotin
    have e5' : (loopStep cfg acc (RawItem.attrsItem m.attrs)).setL =
        cidsOf (pre ++ [m]) := by
      rw [e5, hcon, h5]
      show cidsOf pre ++ [m.cid] = _
      unfold cidsOf
      rw [List.map_append]
      rfl
    rw [List.map_cons, List.foldl_cons]
    have hres := ih (pre ++ [m]) (by rw [hsplit, List.append_assoc]; rfl)
      (loopStep cfg acc (RawItem.attrsItem m.attrs))
      (e1.trans h1) (e2.trans h2) (e4.trans h3) (e3.trans h4) e5'
    refine ⟨hres.1, hres.2.1, hres.2.2.1, hres.2.2.2.1, ?_⟩
    rw [hres.2.2.2.2, List.append_assoc]
    rfl

theorem setStructural_self (sortable : Bool) (acc : LoopAcc) (s2 : CState)
    (atR : Option Int) (hwf : WF s2)
    (hsetL : acc.setL = cidsOf s2.models)
    (hta : acc.toAdd = []) (hsf : acc.sortFlag = false) :
    setStructural sortable true true acc s2 atR =
      { s3 := s2, sortFlag2 := false, orderChanged := false } := by
  have hresolve : resolveCids s2 acc.setL = s2.models := by
    rw [hsetL]
    exact resolveCids_of_lookup s2 s2.models (fun p hp =>
      hwf.2.2.2.1 p (by simpa using hp))
  unfold setStructural
  dsimp only
  rw [hresolve, hta, hsf]
  by_cases hms : s2.models = []
  · rw [if_neg (by simp [hms]), if_neg (by simp)]
  · by_cases hso : sortable = true
    · rw [if_neg (by simp [hso]), if_neg (by simp)]
    · have hso' : sortable = false := by simpa using hso
      subst hso'
      rw [if_pos ⟨hms, by simp⟩, spliceList_from_nil, ← hwf.1]
      simp [anyPositionDiffers_self]

/-- C3: for every well-formed collection and every raw attribute item (a
plain JS object without a `cid` property) whose resolved id matches an
existing model, `set` with that item never increases `length`: no model is
staged for addition (`toAdd` stays empty), every model present afterwards
is a previous member (by its process-unique cid), and the matching model
itself survives — with its attributes merged (`existing.set(attrs)`, line
356) when the `merge` option is in force, and untouched when it is not. -/
theorem claim_C3_matching_id_never_increases_length (s : CState) (a : Attrs)
    (opts : Opts) (ex : SkModel) (i : Int) (hwf : WF s) (hjs : jsObj a)
    (hnc : attrLookup a "cid" = none) (hid : modelId a = some i)
    (hex : byIdLookup s.byId (.inr i) = some ex) :
    (setC s [RawItem.attrsItem a] opts).state.length ≤ s.length ∧
    (setC s [RawItem.attrsItem a] opts).toAddC = [] ∧
    (∀ m ∈ (setC s [RawItem.attrsItem a] opts).state.models,
      m.cid ∈ s.models.map (fun x => x.cid)) ∧
    ((setCfgOf s opts).mergeE = true →
      ∃ m ∈ (setC s [RawItem.attrsItem a] opts).state.models,
        m.cid = ex.cid ∧ m.attrs = mergeAttrs ex.attrs a) ∧
    ((setCfgOf s opts).mergeE = false →
      ex ∈ (setC s [RawItem.attrsItem a] opts).state.models) := by
  have h7 := hwf.2.2.2.2.2.2
  have hexmem : ex ∈ s.models := by
    have := (h7 _ (byIdLookup_mem _ _ _ hex)).1
    simpa using this
  have hexid : modelId ex.attrs = some i :=
    (h7 _ (byIdLookup_mem _ _ _ hex)).2
  have hre : modelId (mergeAttrs ex.attrs a) = modelId ex.attrs :=
    (mergeAttrs_lookup_of_some ex.attrs a "id" i hjs hid).trans hexid.symm
  have hg : getC s (RawItem.attrsItem a).toGetArg = some ex := by
    show ((modelId a).bind (fun j => byIdLookup s.byId (.inr j))).orElse
      (fun _ => (attrLookup a "cid").bind
        (fun c => byIdLookup s.byId (.inr c))) = some ex
    rw [hid, Option.some_bind, hex]
    rfl
  have hitems : ∀ x ∈ [a], jsObj x ∧ attrLookup x "cid" = none := by
    intro x hx
    rw [List.mem_singleton.mp hx]
    exact ⟨hjs, hnc⟩
  have hinv : LoopInv (setLoop (setCfgOf s opts) s [RawItem.attrsItem a]) :=
    setLoop_inv (setCfgOf s opts) s [a] hwf hitems
  have hsA : (setLoop (setCfgOf s opts) s [RawItem.attrsItem a]).toAdd = [] := by
    simp [setLoop, loopStep, hg]
  have hsL : (setLoop (setCfgOf s opts) s [RawItem.attrsItem a]).setL =
      [ex.cid] := by
    simp [setLoop, loopStep, hg]
  obtain ⟨pending, hwfx, htoAdd, hnodup, hres, hsub⟩ := hinv
  have hpnil : pending = [] := by
    rw [hsA] at htoAdd
    exact List.map_eq_nil_iff.mp htoAdd.symm
  subst hpnil
  obtain ⟨hA, hB, hC, hD, hKeep, hLen⟩ := setRemovePhase_facts
    (setLoop (setCfgOf s opts) s [RawItem.attrsItem a]) (setCfgOf s opts).silent
    (setEffOpts opts).index (setCfgOf s opts).removeE [] hwfx hres
  obtain ⟨hwfS, hprovS, hkeepS, hlenS⟩ := setStructural_phase
    (setCfgOf s opts).sortable (setCfgOf s opts).addE (setCfgOf s opts).removeE
    (setLoop (setCfgOf s opts) s [RawItem.attrsItem a])
    (setRemovePhase (setLoop (setCfgOf s opts) s [RawItem.attrsItem a])
      (setToRemove (setCfgOf s opts).removeE
        (setLoop (setCfgOf s opts) s [RawItem.attrsItem a]))
      (setCfgOf s opts).silent (setEffOpts opts).index).s
    (setAtR s opts) [] hA htoAdd hnodup hB hsub hC
  have hlena : (setLoop (setCfgOf s opts) s
      [RawItem.attrsItem a]).s.models.length = s.models.length := by
    have hc := congrArg List.length
      (setLoop_models_cidlist (setCfgOf s opts) s [RawItem.attrsItem a])
    simpa using hc
  have hfs := setC_state_decomp s [RawItem.attrsItem a] opts
  refine ⟨?_, ?_, ?_, ?_, ?_⟩
  · rw [hfs, setSortPhase_length, hwfS.1, hwf.1]
    simp only [List.length_nil, Nat.add_zero] at hlenS
    have : (setStructural (setCfgOf s opts).sortable (setCfgOf s opts).addE
        (setCfgOf s opts).removeE
        (setLoop (setCfgOf s opts) s [RawItem.attrsItem a])
        (setRemovePhase (setLoop (setCfgOf s opts) s [RawItem.attrsItem a])
          (setToRemove (setCfgOf s opts).removeE
            (setLoop (setCfgOf s opts) s [RawItem.attrsItem a]))
          (setCfgOf s opts).silent (setEffOpts opts).index).s
        (setAtR s opts)).s3.models.length ≤ s.models.length := by
      omega
    exact_mod_cast this
  · show (setLoop (setCfgOf s opts) s [RawItem.attrsItem a]).toAdd = []
    exact hsA
  · intro m hm
    rw [hfs] at hm
    have hm3 := (setSortPhase_models_perm _ _).mem_iff.mp hm
    have hm2 := hprovS m hm3
    rw [List.append_nil] at hm2
    have hm1 := hD m hm2
    rw [← setLoop_models_cidlist (setCfgOf s opts) s [RawItem.attrsItem a]]
    exact List.mem_map_of_mem _ hm1
  · intro hme
    have hsS : (setLoop (setCfgOf s opts) s [RawItem.attrsItem a]).s =
        updateModelValue s { ex with attrs := mergeAttrs ex.attrs a } := by
      simp [setLoop, loopStep, hg, hme, sameInstance, RawItem.attrsOf,
        mergeExisting_no_rekey s ex a (setCfgOf s opts).silent hre]
    have hkmem : ({ ex with attrs := mergeAttrs ex.attrs a } : SkModel) ∈
        (setLoop (setCfgOf s opts) s [RawItem.attrsItem a]).s.models := by
      rw [hsS]
      show _ ∈ s.models.map _
      refine List.mem_map.mpr ⟨ex, hexmem, ?_⟩
      rw [if_pos rfl]
    have hkcid : ({ ex with attrs := mergeAttrs ex.attrs a } : SkModel).cid ∈
        (setLoop (setCfgOf s opts) s [RawItem.attrsItem a]).setL := by
      rw [hsL]
      exact List.mem_singleton.mpr rfl
    have hs3 := hkeepS _ (hKeep _ hkmem hkcid) hkcid
    refine ⟨{ ex with attrs := mergeAttrs ex.attrs a }, ?_, rfl, rfl⟩
    rw [hfs]
    exact setSortPhase_mem _ _ _ hs3
  · intro hme
    have hsS : (setLoop (setCfgOf s opts) s [RawItem.attrsItem a]).s = s := by
      simp [setLoop, loopStep, hg, hme, sameInstance]
    have hkmem : ex ∈
        (setLoop (setCfgOf s opts) s [RawItem.attrsItem a]).s.models := by
      rw [hsS]
      exact hexmem
    have hkcid : ex.cid ∈
        (setLoop (setCfgOf s opts) s [RawItem.attrsItem a]).setL := by
      rw [hsL]
      exact List.mem_singleton.mpr rfl
    have hs3 := hkeepS _ (hKeep _ hkmem hkcid) hkcid
    rw [hfs]
    exact setSortPhase_mem _ _ _ hs3

theorem claim_C3_witness :
    WF wStateC2 ∧ jsObj [("id", 7), ("x", 1)] ∧
    attrLookup [("id", 7), ("x", 1)] "cid" = none ∧
    modelId [("id", 7), ("x", 1)] = some 7 ∧
    byIdLookup wStateC2.byId (.inr 7) = some wModelC2 ∧
    ((setC wStateC2 [RawItem.attrsItem [("id", 7), ("x", 1)]] {}).state.length ≤
        wStateC2.length ∧
      (setC wStateC2 [RawItem.attrsItem [("id", 7), ("x", 1)]] {}).toAddC = [] ∧
      (∀ m ∈ (setC wStateC2
          [RawItem.attrsItem [("id", 7), ("x", 1)]] {}).state.models,
        m.cid ∈ wStateC2.models.map (fun x => x.cid)) ∧
      ((setCfgOf wStateC2 {}).mergeE = true →
        ∃ m ∈ (setC wStateC2
            [RawItem.attrsItem [("id", 7), ("x", 1)]] {}).state.models,
          m.cid = wModelC2.cid ∧
          m.attrs = mergeAttrs wModelC2.attrs [("id", 7), ("x", 1)]) ∧
      ((setCfgOf wStateC2 {}).mergeE = false →
        wModelC2 ∈ (setC wStateC2
          [RawItem.attrsItem [("id", 7), ("x", 1)]] {}).state.models)) :=
  ⟨by decide, by decide, by decide, by decide, by decide,
    claim_C3_matching_id_never_increases_length wStateC2 [("id", 7), ("x", 1)]
      {} wModelC2 7 (by decide) (by decide) (by decide) (by decide) (by decide)⟩

/-- C6 counterexample: a well-formed one-model collection whose model has
no resolvable id. `set(collection.toJSON())` cannot match the serialized
attributes back to the model (`get` resolves an attributes object only
through its id or `cid` property, lines 526-531, and `toJSON` strips the
cid), so the add path constructs a fresh model (cid 1) and the remove path
drops the old one (cid 0): membership changes and both an `add` and a
`remove` event fire, contradicting the claim. -/
theorem claim_C6_counterexample :
    WF wStateC6 ∧
    (setC wStateC6 (toJSONc wStateC6) {}).state.models.map (fun m => m.cid) =
      [1] ∧
    wStateC6.models.map (fun m => m.cid) = [0] ∧
    (setC wStateC6 (toJSONc wStateC6) {}).trace.map Prod.fst =
      [SkEvent.remove wModelC6 0,
       SkEvent.add { cid := 1, attrs := [("x", 5)], validationError := none }
         (some 0),
       SkEvent.sort,
       SkEvent.update
         [{ cid := 1, attrs := [("x", 5)], validationError := none }]
         [wModelC6] []] := by
  refine ⟨by decide, by decide, by decide, by decide⟩

/-- C6, amended: for every well-formed collection all of whose members
have duplicate-free attribute bags and a resolvable id, `set(toJSON())`
with default options is a complete no-op on the state — each serialized
item resolves to its own model through the id key, merging a model's own
attributes into itself changes nothing, nothing is staged for addition or
removal, the wholesale-replace branch rebuilds the identical array — and
the trace contains no `add` and no `remove` event (only possibly the
no-op `update` summary). -/
theorem claim_C6_amended_self_set_noop (s : CState) (hwf : WF s)
    (hids : ∀ m ∈ s.models, jsObj m.attrs ∧ (modelId m.attrs).isSome) :
    (setC s (toJSONc s) {}).state = s ∧
    (∀ t ∈ (setC s (toJSONc s) {}).trace,
      (∀ m idx, t.1 ≠ SkEvent.add m idx) ∧
      (∀ m j, t.1 ≠ SkEvent.remove m j)) := by
  obtain ⟨e1, e2, e3, e4, e5⟩ := loop_self_fold (setCfgOf s {}) s hwf hids
    s.models [] rfl
    { s := s, setL := [], toAdd := [], toMerge := [], ret := [],
      sortFlag := false, invalids := [] } rfl rfl rfl rfl rfl
  have hloopS : (setLoop (setCfgOf s {}) s (toJSONc s)).s = s := e1
  have hloopTA : (setLoop (setCfgOf s {}) s (toJSONc s)).toAdd = [] := e2
  have hloopSF : (setLoop (setCfgOf s {}) s (toJSONc s)).sortFlag = false := e3
  have hloopINV : (setLoop (setCfgOf s {}) s (toJSONc s)).invalids = [] := e4
  have hloopSetL : (setLoop (setCfgOf s {}) s (toJSONc s)).setL =
      cidsOf s.models := by
    have := e5
    rw [List.nil_append] at this
    exact this
  have hremE : (setCfgOf s {}).removeE = true := rfl
  have haddE : (setCfgOf s {}).addE = true := rfl
  have hTR : setToRemove (setCfgOf s {}).removeE
      (setLoop (setCfgOf s {}) s (toJSONc s)) = [] := by
    rw [hremE]
    have heq : setToRemove true (setLoop (setCfgOf s {}) s (toJSONc s)) =
        (setLoop (setCfgOf s {}) s (toJSONc s)).s.models.filter
          (fun m => !((setLoop (setCfgOf s {}) s (toJSONc s)).setL.contains
            m.cid)) := by
      simp [setToRemove]
    rw [heq, hloopS, hloopSetL]
    refine List.filter_eq_nil_iff.mpr ?_
    intro x hx
    have hxc : x.cid ∈ cidsOf s.models := List.mem_map_of_mem _ hx
    simpa using hxc
  have hREM : setRemovePhase (setLoop (setCfgOf s {}) s (toJSONc s))
      (setToRemove (setCfgOf s {}).removeE
        (setLoop (setCfgOf s {}) s (toJSONc s)))
      (setCfgOf s {}).silent (setEffOpts {}).index =
      { s := (setLoop (setCfgOf s {}) s (toJSONc s)).s, trace := [],
        removed := [], curIdx := (setEffOpts {}).index } := by
    rw [hTR, setRemovePhase_nil]
  have hstruct : setStructural (setCfgOf s {}).sortable (setCfgOf s {}).addE
      (setCfgOf s {}).removeE (setLoop (setCfgOf s {}) s (toJSONc s))
      (setRemovePhase (setLoop (setCfgOf s {}) s (toJSONc s))
        (setToRemove (setCfgOf s {}).removeE
          (setLoop (setCfgOf s {}) s (toJSONc s)))
        (setCfgOf s {}).silent (setEffOpts {}).index).s
      (setAtR s {}) =
      { s3 := s, sortFlag2 := false, orderChanged := false } := by
    rw [hREM]
    dsimp only
    rw [hloopS, haddE, hremE]
    exact setStructural_self (setCfgOf s {}).sortable _ s (setAtR s {}) hwf
      (by rw [hloopSetL]) hloopTA hloopSF
  have hstate : (setC s (toJSONc s) {}).state = s := by
    rw [setC_state_decomp, hstruct]
    dsimp only
    rw [setSortPhase_false]
  refine ⟨hstate, ?_⟩
  have hTAM : (setC s (toJSONc s) {}).toAddM = [] := by
    show resolveCids (setC s (toJSONc s) {}).state
      (setLoop (setCfgOf s {}) s (toJSONc s)).toAdd = []
    rw [hloopTA]
    rfl
  have hTAC : (setC s (toJSONc s) {}).toAddC = [] := hloopTA
  have hTRM : (setC s (toJSONc s) {}).toRemoveM = [] := hTR
  have hSF2 : (setC s (toJSONc s) {}).sortFlag = false := by
    show (setStructural (setCfgOf s {}).sortable (setCfgOf s {}).addE
      (setCfgOf s {}).removeE (setLoop (setCfgOf s {}) s (toJSONc s))
      (setRemovePhase (setLoop (setCfgOf s {}) s (toJSONc s))
        (setToRemove (setCfgOf s {}).removeE
          (setLoop (setCfgOf s {}) s (toJSONc s)))
        (setCfgOf s {}).silent (setEffOpts {}).index).s
      (setAtR s {})).sortFlag2 = false
    rw [hstruct]
  have hOC : (setC s (toJSONc s) {}).orderChanged = false := by
    show (setStructural (setCfgOf s {}).sortable (setCfgOf s {}).addE
      (setCfgOf s {}).removeE (setLoop (setCfgOf s {}) s (toJSONc s))
      (setRemovePhase (setLoop (setCfgOf s {}) s (toJSONc s))
        (setToRemove (setCfgOf s {}).removeE
          (setLoop (setCfgOf s {}) s (toJSONc s)))
        (setCfgOf s {}).silent (setEffOpts {}).index).s
      (setAtR s {})).orderChanged = false
    rw [hstruct]
  intro t ht
  rw [setC_trace_decomp, hloopINV, hREM] at ht
  dsimp only at ht
  rw [List.nil_append, List.nil_append] at ht
  rw [show (setCfgOf s {}).silent = false from rfl] at ht
  unfold setEvents at ht
  rw [if_neg (by simp)] at ht
  rw [hTAM, hTRM, hSF2, hOC] at ht
  simp only [addEvents, List.nil_append, Bool.or_false, if_false] at ht
  rcases List.mem_append.mp ht with ht1 | ht2
  · simp at ht1
  · split at ht2
    · rw [List.mem_singleton.mp ht2]
      exact ⟨fun m idx => by simp, fun m j => by simp⟩
    · simp at ht2

theorem claim_C6_witness :
    WF wStateC2 ∧
    (∀ m ∈ wStateC2.models, jsObj m.attrs ∧ (modelId m.attrs).isSome) ∧
    ((setC wStateC2 (toJSONc wStateC2) {}).state = wStateC2 ∧
      (∀ t ∈ (setC wStateC2 (toJSONc wStateC2) {}).trace,
        (∀ m idx, t.1 ≠ SkEvent.add m idx) ∧
        (∀ m j, t.1 ≠ SkEvent.remove m j))) :=
  ⟨by decide, by decide,
    claim_C6_amended_self_set_noop wStateC2 (by decide) (by decide)⟩

/-- C1 counterexample: from an empty collection, `set([{id: 7}])` followed
by `set([{id: 3, cid: 7}], {silent: true})` violates the claimed invariant.
The second item is matched through the `cid` property read of `get` (line
530) against the id key `7`; the silent merge rewrites the model's id to 3,
and since no `change` event fires, `_onModelEvent` (lines 746-757) never
re-keys `_byId`: the member's id now resolves to 3 but its only id entry
sits under 7, so "an entry under that id" fails after a sequence of public
`set` calls. -/
theorem claim_C1_counterexample :
    WF emptyColl ∧
    ¬ InvC1 (runOps emptyColl
      [COp.setOp [[("id", 7)]] {},
       COp.setOp [[("id", 3), ("cid", 7)]] { silent := some true }]) := by
  constructor
  · decide
  · decide

/-- C1, amended: for every well-formed collection state and every finite
sequence of public `add`, `remove`, `set`, and `reset` calls whose raw
attribute items are plain JS objects carrying no `cid` property, the final
state is well-formed and hence satisfies the claimed invariant: `length`
equals `models.length`, every member is indexed in `_byId` under its `cid`
and (when `modelId` resolves) under its id, and `_byId` holds no entry for
a model that is not a member. Every prefix of such a sequence is itself
such a sequence, so the invariant holds at the end of each call. -/
theorem claim_C1_amended_invariant_safe_ops (s : CState) (ops : List COp)
    (hwf : WF s) (hsafe : ∀ op ∈ ops, opSafe op) :
    WF (runOps s ops) ∧ InvC1 (runOps s ops) :=
  ⟨runOps_wf s ops hwf hsafe, WF_invC1 _ (runOps_wf s ops hwf hsafe)⟩

theorem claim_C1_witness :
    WF emptyColl ∧
    (∀ op ∈ [COp.addOp [[("id", 1)], [("id", 2)]] {},
      COp.setOp [[("id", 2), ("x", 5)], [("id", 9)]] {},
      COp.removeOp [GetArg.key (Sum.inr 9)] {},
      COp.resetOp [[("id", 4)]] {}], opSafe op) ∧
    (WF (runOps emptyColl [COp.addOp [[("id", 1)], [("id", 2)]] {},
      COp.setOp [[("id", 2), ("x", 5)], [("id", 9)]] {},
      COp.removeOp [GetArg.key (Sum.inr 9)] {},
      COp.resetOp [[("id", 4)]] {}]) ∧
    InvC1 (runOps emptyColl [COp.addOp [[("id", 1)], [("id", 2)]] {},
      COp.setOp [[("id", 2), ("x", 5)], [("id", 9)]] {},
      COp.removeOp [GetArg.key (Sum.inr 9)] {},
      COp.resetOp [[("id", 4)]] {}])) :=
  ⟨by decide, by decide,
    claim_C1_amended_invariant_safe_ops emptyColl
      [COp.addOp [[("id", 1)], [("id", 2)]] {},
        COp.setOp [[("id", 2), ("x", 5)], [("id", 9)]] {},
        COp.removeOp [GetArg.key (Sum.inr 9)] {},
        COp.resetOp [[("id", 4)]] {}] (by decide) (by decide)⟩

end Skeletor
